import Mathlib

/-!
filter_server: session slot table, timeout reaper and accept loop

A shallow embedding of `src/filter_server.cpp` (`checkUpOnTheKids`, `findSlot`
and the `while (true)` loop of `main`) and of the descriptor plumbing of
`src/utilities.cpp` (`runChildProcess`, `createPreProcess`,
`createPostProcess`).

Conventions of the embedding:

* `pid_t` and `int` values are `Int`; array indices and loop counters are `Nat`.
* A `double` is the rational it stands for; the sums and products the source
  computes in `double` (`expiryTime + 2.0`, `getTimeSinceStart () + maximumTime`,
  `60.0 * double (value)`) are the exact results rounded to the nearest double,
  ties to even (`roundDouble`). Comparisons of doubles are exact.
* The answers of the operating system (`getTimeSinceStart`, `waitpid`, `kill`,
  `accept`, `fork`) are inputs of the model, and the system calls issued are
  recorded in an event log. Lines written to stdout are not part of the log.
* The results of `getopt_long` are an input list of option characters with
  their arguments; the libc functions `atoi` and `sscanf` are modelled as glibc
  implements them: a value outside the range of `long` is saturated, and the
  conversion to `int` keeps the low 32 bits.
-/

namespace FilterServer

/-- The constant `MAXIMUM_CONNECTIONS` of filter_server.cpp. -/
def MAXIMUM_CONNECTIONS : Nat := 80

/-! ## Machine numbers -/

/-- Rounding a rational to an integer, halves to the even neighbour. -/
def roundHalfEven (x : ℚ) : Int :=
  if x - ⌊x⌋ < 1 / 2 then ⌊x⌋
  else if 1 / 2 < x - ⌊x⌋ then ⌊x⌋ + 1
  else if ⌊x⌋ % 2 = 0 then ⌊x⌋ else ⌊x⌋ + 1

/-- The binary exponent of the unit in the last place of a positive value held
with 53 significant bits. -/
def ulpExponent (q : ℚ) : Int :=
  Int.log 2 q - 52

/-- Rounding a positive rational to 53 significant bits, to nearest, ties to
even. -/
def roundPositive (q : ℚ) : ℚ :=
  (roundHalfEven (q / 2 ^ ulpExponent q) : ℚ) * 2 ^ ulpExponent q

/-- The `double` nearest to a rational (IEEE 754 binary64, round to nearest,
ties to even). The exponent is not bounded: overflow to infinity is not part
of the model, and no sum or product of the program comes near it. -/
def roundDouble (q : ℚ) : ℚ :=
  if 0 < q then roundPositive q else if q < 0 then -roundPositive (-q) else 0

/-- Addition of two `double` values: the exact sum, rounded. -/
def dadd (a b : ℚ) : ℚ :=
  roundDouble (a + b)

/-- Multiplication of two `double` values: the exact product, rounded. -/
def dmul (a b : ℚ) : ℚ :=
  roundDouble (a * b)

/-- The rational is the value of a `double`. -/
def IsDouble (q : ℚ) : Prop :=
  roundDouble q = q

/-- The value of a decimal integer as `strtol` and the `ld` conversion of
glibc store it in a `long`: saturated at `LONG_MIN` and `LONG_MAX`. -/
def clampLong (v : Int) : Int :=
  max (-9223372036854775808) (min v 9223372036854775807)

/-- The conversion of a `long` to `int`: the low 32 bits, two's complement. -/
def wrapInt (v : Int) : Int :=
  (v + 2147483648) % 4294967296 - 2147483648

/-- The enum `ProcessState` of filter_server.cpp. -/
inductive ProcessState
  | psRunning
  | psTerminated
  | psKilled
  deriving DecidableEq, Repr

/-- The struct `ProcessData` of filter_server.cpp. -/
structure ProcessData where
  pid : Int
  state : ProcessState
  expiryTime : ℚ
  deriving DecidableEq, Repr

/-- The array type `ProcessList`; a table of the program has length
`MAXIMUM_CONNECTIONS`. A read outside the list is undefined in the source and
is treated as a skipped slot here. -/
abbrev ProcessList := List ProcessData

/-- The two signals the reaper sends. -/
inductive Signal
  | SIGTERM
  | SIGKILL
  deriving DecidableEq, Repr

/-- System calls and diagnostics recorded by the model. -/
inductive Event
  | waitpid (pid : Int)
  | kill (pid : Int) (sig : Signal)
  | perrorf
  | delay
  | accept
  | fork
  | close (fd : Int)
  deriving DecidableEq, Repr

/-- What the operating system answers during one call of `checkUpOnTheKids`:
the clock reading, and for the slot with index `j` the return value of its
`waitpid (pid, &status, WNOHANG)` and of its `kill`. -/
structure PassEnv where
  timeNow : ℚ
  waitpid : Nat → Int
  kill : Nat → Int

/-- The body of the `for` loop of `checkUpOnTheKids` for one slot
(filter_server.cpp lines 136-186): the new slot record and the events issued. -/
def checkKid (timeNow : ℚ) (waitpid_code : Int) (status : Int) (proc : ProcessData) :
    ProcessData × List Event :=
  if 0 ≤ proc.pid then
    if waitpid_code = -1 then
      (proc, [Event.waitpid proc.pid, Event.perrorf])
    else if waitpid_code = proc.pid then
      ({ proc with pid := -1 }, [Event.waitpid proc.pid])
    else if timeNow ≥ proc.expiryTime then
      match proc.state with
      | ProcessState.psRunning =>
        ({ proc with state := ProcessState.psTerminated },
          [Event.waitpid proc.pid, Event.kill proc.pid Signal.SIGTERM]
            ++ (if status < 0 then [Event.perrorf] else []))
      | ProcessState.psTerminated =>
        if timeNow ≥ dadd proc.expiryTime 2 then
          ({ proc with state := ProcessState.psKilled },
            [Event.waitpid proc.pid, Event.kill proc.pid Signal.SIGKILL]
              ++ (if status < 0 then [Event.perrorf] else []))
        else
          (proc, [Event.waitpid proc.pid])
      | ProcessState.psKilled => (proc, [Event.waitpid proc.pid])
    else
      (proc, [Event.waitpid proc.pid])
  else
    (proc, [])

/-- One iteration `j` of the loop of `checkUpOnTheKids`, on the table and the
log accumulated so far; every event is tagged with the slot it belongs to. -/
def checkUpStep (env : PassEnv) (acc : ProcessList × List (Nat × Event)) (j : Nat) :
    ProcessList × List (Nat × Event) :=
  match acc.1[j]? with
  | none => acc
  | some proc =>
    let r := checkKid env.timeNow (env.waitpid j) (env.kill j) proc
    (acc.1.set j r.1, acc.2 ++ r.2.map (fun e => (j, e)))

/-- The function `checkUpOnTheKids`: slots `0 .. maximumSessions - 1` in order. -/
def checkUpOnTheKids (env : PassEnv) (children : ProcessList) (maximumSessions : Int) :
    ProcessList × List (Nat × Event) :=
  (List.range maximumSessions.toNat).foldl (checkUpStep env) (children, [])

/-- The loop of `findSlot`, with `remaining` iterations left from index `j`. -/
def findSlotLoop (children : ProcessList) : Nat → Nat → Int
  | 0, _ => -1
  | remaining + 1, j =>
    match children[j]? with
    | some proc => if proc.pid = -1 then (j : Int) else findSlotLoop children remaining (j + 1)
    | none => findSlotLoop children remaining (j + 1)

/-- The function `findSlot`. -/
def findSlot (children : ProcessList) (maximumSessions : Int) : Int :=
  findSlotLoop children maximumSessions.toNat 0

/-- The events of a pass that belong to slot `j`. -/
def slotLog (j : Nat) (log : List (Nat × Event)) : List Event :=
  (log.filter (fun e => e.1 = j)).map Prod.snd

/-- The signals among a list of events, in order. -/
def signalsOf : List Event → List Signal
  | [] => []
  | Event.kill _ sig :: es => sig :: signalsOf es
  | _ :: es => signalsOf es

/-- The signals sent for slot `j` in a pass. -/
def signalsTo (j : Nat) (log : List (Nat × Event)) : List Signal :=
  signalsOf (slotLog j log)

/-- The `kill` calls issued for slot `j` in a pass, with the process they address. -/
def killsTo (j : Nat) (log : List (Nat × Event)) : List Event :=
  (slotLog j log).filter (fun e => match e with
    | Event.kill _ _ => true
    | _ => false)

/-- The process id stored in slot `j`, if the table has such a slot. -/
def pidAt (children : ProcessList) (j : Nat) : Option Int :=
  (children[j]?).map ProcessData.pid

/-- What the operating system answers during one iteration of the accept loop:
the answers for the reaper pass, the return value of `accept`, whether `errno`
is `EAGAIN` or `EWOULDBLOCK` after a failed accept, the return value of `fork`,
and the clock reading of the parent path. -/
structure LoopEnv where
  pass : PassEnv
  accept : Int
  wouldBlock : Bool
  fork : Int
  timeNow : ℚ

/-- How one iteration of `while (true)` ends for the process that runs it:
back at the top of the loop with a table, or as the forked child, which calls
`runChildProcess` on the connection and never returns to the loop. -/
inductive LoopOutcome
  | continues (children : ProcessList)
  | worker (connectionFd : Int)
  deriving DecidableEq, Repr

/-- One iteration of the `while (true)` loop of `main`
(filter_server.cpp lines 410-488). -/
def loopIteration (listenFd : Int) (maximumSessions : Int) (maximumTime : ℚ) (env : LoopEnv)
    (childProcessList : ProcessList) : LoopOutcome × List Event :=
  let pass := checkUpOnTheKids env.pass childProcessList maximumSessions
  let children := pass.1
  let log := pass.2.map Prod.snd
  let slot := findSlot children maximumSessions
  if slot < 0 then
    (LoopOutcome.continues children, log ++ [Event.delay])
  else
    let connectionFd := env.accept
    if connectionFd < 0 then
      (LoopOutcome.continues children,
        log ++ [Event.accept] ++ (if env.wouldBlock then [] else [Event.perrorf])
          ++ [Event.delay])
    else
      let pid := env.fork
      if pid < 0 then
        (LoopOutcome.continues children,
          log ++ [Event.accept, Event.fork, Event.perrorf, Event.delay])
      else if pid > 0 then
        (LoopOutcome.continues
            (children.set slot.toNat
              ⟨pid, ProcessState.psRunning, dadd env.timeNow maximumTime⟩),
          log ++ [Event.accept, Event.fork, Event.close connectionFd])
      else
        (LoopOutcome.worker connectionFd,
          log ++ [Event.accept, Event.fork, Event.close listenFd])

/-- The accept loop run for as many iterations as there are environments. -/
def mainLoop (listenFd : Int) (maximumSessions : Int) (maximumTime : ℚ) :
    List LoopEnv → ProcessList → LoopOutcome × List Event
  | [], children => (LoopOutcome.continues children, [])
  | env :: rest, children =>
    match loopIteration listenFd maximumSessions maximumTime env children with
    | (LoopOutcome.continues next, log) =>
      let r := mainLoop listenFd maximumSessions maximumTime rest next
      (r.1, log ++ r.2)
    | (LoopOutcome.worker fd, log) => (LoopOutcome.worker fd, log)

/-- The table as `main` leaves it before the loop (lines 391-395): every one of
the `MAXIMUM_CONNECTIONS` records has `pid = -1`; the other two fields are not
initialised and may hold anything. -/
def StartupTable (children : ProcessList) : Prop :=
  children.length = MAXIMUM_CONNECTIONS ∧ ∀ p ∈ children, p.pid = -1

/-- Number of slots that are not free. -/
def occupiedCount (children : ProcessList) : Nat :=
  children.countP (fun p => decide (p.pid ≠ -1))

/-- The shape of the table the loop maintains for the maximum `M`: it has
`MAXIMUM_CONNECTIONS` slots and every slot from index `M` on is free. -/
def TableShape (M : Int) (children : ProcessList) : Prop :=
  children.length = MAXIMUM_CONNECTIONS ∧
    ∀ j : Nat, M ≤ (j : Int) → j < MAXIMUM_CONNECTIONS → pidAt children j = some (-1)

/-- Successive calls of `checkUpOnTheKids` on one table, one per environment:
the table after each pass together with the log of that pass. -/
def reaperPasses (M : Int) : List PassEnv → ProcessList → List (ProcessList × List (Nat × Event))
  | [], _ => []
  | env :: rest, children =>
    checkUpOnTheKids env children M :: reaperPasses M rest (checkUpOnTheKids env children M).1

/-- The signals sent for slot `j` over successive passes, in order. -/
def sessionSignals (M : Int) (j : Nat) : List PassEnv → ProcessList → List Signal
  | [], _ => []
  | env :: rest, children =>
    signalsTo j (checkUpOnTheKids env children M).2
      ++ sessionSignals M j rest (checkUpOnTheKids env children M).1

/-- The state field of slot `j` before the first pass and after each pass. -/
def sessionStates (M : Int) (j : Nat) : List PassEnv → ProcessList → List (Option ProcessState)
  | [], children => [(children[j]?).map ProcessData.state]
  | env :: rest, children =>
    (children[j]?).map ProcessData.state
      :: sessionStates M j rest (checkUpOnTheKids env children M).1

/-- One step of the escalation ladder: stay, or psRunning to psTerminated, or
psTerminated to psKilled. -/
def Advances : Option ProcessState → Option ProcessState → Prop
  | some a, some b =>
    b = a ∨ (a = ProcessState.psRunning ∧ b = ProcessState.psTerminated) ∨
      (a = ProcessState.psTerminated ∧ b = ProcessState.psKilled)
  | _, _ => False

/-- The signals a session in the given state has still to receive at most. -/
def signalsAhead : ProcessState → List Signal
  | ProcessState.psRunning => [Signal.SIGTERM, Signal.SIGKILL]
  | ProcessState.psTerminated => [Signal.SIGKILL]
  | ProcessState.psKilled => []

/-- A startup table: 80 free slots. -/
def startupExample : ProcessList :=
  List.replicate 80 ⟨-1, ProcessState.psRunning, 0⟩

/-- Answers of an iteration at time `t` in which every `waitpid` says "still
running", `accept` yields descriptor 5 and `fork` yields `pid`. -/
def acceptEnv (t : ℚ) (pid : Int) : LoopEnv :=
  ⟨⟨t, fun _ => 0, fun _ => 0⟩, 5, false, pid, t⟩

/-- A table whose slot 0 holds process 41, running, with deadline 10; the
other 79 slots are free. -/
def overdueExample : ProcessList :=
  ⟨41, ProcessState.psRunning, 10⟩ :: List.replicate 79 ⟨-1, ProcessState.psRunning, 0⟩

/-- Answers of a pass at time `t` in which every `waitpid` says "still running". -/
def quietPass (t : ℚ) : PassEnv :=
  ⟨t, fun _ => 0, fun _ => 0⟩

/-- A table whose slot 0 holds process 41, sent SIGTERM, with the deadline
14.9 (the double 0x1.dcccccccccccdp+3); the other 79 slots are free. -/
def graceExample : ProcessList :=
  ⟨41, ProcessState.psTerminated, 8387954305977549 / 562949953421312⟩
    :: List.replicate 79 ⟨-1, ProcessState.psRunning, 0⟩

/-- Answers of an iteration in which the clock reads 0.7 (the double
0x1.6666666666666p-1), `accept` yields descriptor 5 and `fork` yields 100. -/
def pointSevenEnv : LoopEnv :=
  ⟨⟨3152519739159347 / 4503599627370496, fun _ => 0, fun _ => 0⟩, 5, false, 100,
    3152519739159347 / 4503599627370496⟩

/-- The events `checkUpOnTheKids` can issue: `waitpid`, `kill` and diagnostics. -/
def reaperEvent : Event → Bool
  | Event.waitpid _ => true
  | Event.kill _ _ => true
  | Event.perrorf => true
  | _ => false

/-- No process id is recorded in two slots: two slots that hold the same pid,
other than the free mark -1, are the same slot. -/
def DistinctPids (children : ProcessList) : Prop :=
  ∀ (i j : Nat) (p q : ProcessData), children[i]? = some p → children[j]? = some q →
    p.pid ≠ -1 → p.pid = q.pid → i = j

/-- The assumption on `fork` for one iteration begun with the table `children`:
if the iteration gets as far as `fork` and `fork` succeeds in the parent, the
pid it returns is not recorded in the table at that moment. -/
def ForkFresh (M : Int) (env : LoopEnv) (children : ProcessList) : Prop :=
  ¬ findSlot (checkUpOnTheKids env.pass children M).1 M < 0 → 0 ≤ env.accept → 0 < env.fork →
    ∀ p ∈ (checkUpOnTheKids env.pass children M).1, p.pid ≠ env.fork

/-- The assumption `ForkFresh` for every iteration of a run of the loop. -/
def ForksFresh (listenFd : Int) (M : Int) (maximumTime : ℚ) :
    List LoopEnv → ProcessList → Prop
  | [], _ => True
  | env :: rest, children =>
    ForkFresh M env children ∧
      match (loopIteration listenFd M maximumTime env children).1 with
      | LoopOutcome.continues next => ForksFresh listenFd M maximumTime rest next
      | LoopOutcome.worker _ => True

/-! ## Descriptors of the worker (utilities.cpp) -/

/-- An open file description a descriptor of the worker can refer to: the
accepted connection, the two ends of the `k`-th pipe the worker creates, or
anything else it inherited. -/
inductive File
  | connection
  | pipeRead (k : Nat)
  | pipeWrite (k : Nat)
  | inherited (n : Nat)
  deriving DecidableEq, Repr

/-- The descriptor table of a process: position `fd` holds the file descriptor
`fd` refers to, `none` when it is closed; descriptors past the end are closed. -/
abbrev FdTable := List (Option File)

/-- The file descriptor `fd` refers to, if it is open. -/
def fileAt (t : FdTable) (fd : Nat) : Option File :=
  (t[fd]?).join

/-- The table with descriptor `fd` made to refer to `f`. -/
def setFd (t : FdTable) (fd : Nat) (f : Option File) : FdTable :=
  if fd < t.length then t.set fd f else t ++ List.replicate (fd - t.length) none ++ [f]

/-- The lowest-numbered descriptor that is not open. -/
def lowestFree (t : FdTable) : Nat :=
  t.findIdx (fun f => f.isNone)

/-- The system call `close`; closing a descriptor that is not open changes
nothing (the source ignores the return value). -/
def close (t : FdTable) (fd : Nat) : FdTable :=
  if fd < t.length then t.set fd none else t

/-- The system call `dup2 (oldfd, newfd)`: `none` when it fails (`oldfd` is not
an open descriptor), otherwise the table in which `newfd` refers to the file of
`oldfd`. -/
def dup2 (t : FdTable) (oldfd : Int) (newfd : Nat) : Option FdTable :=
  if oldfd < 0 then none
  else
    match fileAt t oldfd.toNat with
    | none => none
    | some f => some (setFd t newfd (some f))

/-- The system call `pipe` when it succeeds, creating pipe number `k`: the new
table, the read descriptor `fd_set [0]` and the write descriptor `fd_set [1]`,
each the lowest descriptor free at its turn. -/
def pipe (t : FdTable) (k : Nat) : FdTable × Nat × Nat :=
  let rd := lowestFree t
  let t1 := setFd t rd (some (File.pipeRead k))
  let wr := lowestFree t1
  (setFd t1 wr (some (File.pipeWrite k)), rd, wr)

/-- The loop `for (tfd = ...; tfd <= maxfd; tfd++) close (tfd)` of
`runChildProcess`, with `remaining` iterations left from `tfd`. -/
def closeLoop (t : FdTable) : Nat → Nat → FdTable
  | 0, _ => t
  | remaining + 1, tfd => closeLoop (close t tfd) remaining (tfd + 1)

/-- The program named by `argv [0]` in a call of `execvp`. -/
inductive Program
  | gunzip
  | gzip
  | command
  deriving DecidableEq, Repr

/-- How a process of the session ends up: running the program it exec'ed, with
the descriptor table it had at `execvp`, or terminated by `_exit`. -/
inductive Ending
  | exec (argv0 : Program) (fds : FdTable)
  | exit (status : Nat)
  deriving DecidableEq, Repr

/-- What the operating system answers inside the worker: the value of
`sysconf (_SC_OPEN_MAX)`, and whether the `pipe`, `fork` and `execvp` calls made
for a given program fail. -/
structure SysAnswers where
  maxfd : Int
  pipeFails : Program → Bool
  forkFails : Program → Bool
  execFails : Program → Bool

/-- The worker between the steps of `runChildProcess`: its descriptor table,
the number of pipes it has created, and the stage processes forked so far. -/
structure Worker where
  fds : FdTable
  pipes : Nat
  stages : List Ending
  deriving DecidableEq, Repr

/-- The function `createPreProcess`: an error carries the state and the status
with which the calling process `_exit`s. -/
def createPreProcess (sys : SysAnswers) (argv0 : Program) (w : Worker) :
    Except (Worker × Nat) Worker :=
  if sys.pipeFails argv0 then Except.error (w, 4)
  else
    let fd_set := pipe w.fds w.pipes
    if sys.forkFails argv0 then
      Except.error ({ w with fds := fd_set.1, pipes := w.pipes + 1 }, 4)
    else
      let child : Ending :=
        match dup2 (close fd_set.1 fd_set.2.1) fd_set.2.2 1 with
        | none => Ending.exit 4
        | some fds => if sys.execFails argv0 then Ending.exit 4 else Ending.exec argv0 fds
      let parent : Worker :=
        { fds := close fd_set.1 fd_set.2.2, pipes := w.pipes + 1, stages := w.stages ++ [child] }
      match dup2 parent.fds fd_set.2.1 0 with
      | none => Except.error (parent, 4)
      | some fds => Except.ok { parent with fds := fds }

/-- The function `createPostProcess`. -/
def createPostProcess (sys : SysAnswers) (argv0 : Program) (w : Worker) :
    Except (Worker × Nat) Worker :=
  if sys.pipeFails argv0 then Except.error (w, 4)
  else
    let fd_set := pipe w.fds w.pipes
    if sys.forkFails argv0 then
      Except.error ({ w with fds := fd_set.1, pipes := w.pipes + 1 }, 4)
    else
      let child : Ending :=
        match dup2 (close fd_set.1 fd_set.2.2) fd_set.2.1 0 with
        | none => Ending.exit 4
        | some fds => if sys.execFails argv0 then Ending.exit 4 else Ending.exec argv0 fds
      let parent : Worker :=
        { fds := close fd_set.1 fd_set.2.1, pipes := w.pipes + 1, stages := w.stages ++ [child] }
      match dup2 parent.fds fd_set.2.2 1 with
      | none => Except.error (parent, 4)
      | some fds => Except.ok { parent with fds := fds }

/-- The function `runChildProcess`, run by the worker on its descriptor table
`fds`: the stage processes it forked and how the worker itself ends up. -/
def runChildProcess (sys : SysAnswers) (fds : FdTable) (connectionFd : Int) (argv0 : Program)
    (inputIsCompressed doCompressOutput : Bool) : List Ending × Ending :=
  match dup2 fds connectionFd 0 with
  | none => ([], Ending.exit 4)
  | some fds0 =>
    match dup2 fds0 connectionFd 1 with
    | none => ([], Ending.exit 4)
    | some fds1 =>
      let start : Worker := ⟨closeLoop fds1 (sys.maxfd - 2).toNat 3, 0, []⟩
      match (if inputIsCompressed then createPreProcess sys Program.gunzip start
          else Except.ok start) with
      | Except.error (w, status) => (w.stages, Ending.exit status)
      | Except.ok w1 =>
        match (if doCompressOutput then createPostProcess sys Program.gzip w1
            else Except.ok w1) with
        | Except.error (w, status) => (w.stages, Ending.exit status)
        | Except.ok w2 =>
          (w2.stages,
            if sys.execFails argv0 then Ending.exit 8 else Ending.exec argv0 w2.fds)

/-- Answers under which no system call of the worker fails. -/
def noFailure : SysAnswers :=
  ⟨1024, fun _ => false, fun _ => false, fun _ => false⟩

/-- A worker whose descriptors 0, 1 and 2 are the server's standard streams
and whose descriptor 4 is the accepted connection. -/
def workerFdsExample : FdTable :=
  [some (File.inherited 0), some (File.inherited 1), some (File.inherited 2), none,
    some File.connection]

/-! ## Command-line options (main, filter_server.cpp lines 212-341) -/

/-- The values `main` derives from the options. -/
structure Settings where
  inputIsCompressed : Bool
  doCompressOutput : Bool
  maximumSessions : Int
  maximumTime : ℚ
  deriving DecidableEq, Repr

/-- What `main` prints when it returns from inside the option loop: the usage
text of `printUsage` (on stderr, possibly after a line naming the offending
option), the help text of `printHelp`, or the version line. -/
inductive Message
  | usage
  | help
  | version
  deriving DecidableEq, Repr

/-- A return of `main` from inside the option loop: the exit status and what
was printed. -/
structure Exit where
  status : Int
  message : Message
  deriving DecidableEq, Repr

/-- One result of `getopt_long`: the option character `c` the `switch` of `main`
dispatches on, with `optarg` for the two options that take an argument.
`zero` is `case 0`, `invalid` is the case of the question mark, `other` is
`default`. -/
inductive Opt
  | zero
  | h
  | v
  | u
  | z
  | t (optarg : List Char)
  | s (optarg : List Char)
  | invalid
  | other
  deriving DecidableEq, Repr

/-- The libc predicate `isspace` in the C locale: space, and the control
characters 9 to 13. -/
def isspace (c : Char) : Bool :=
  c.toNat = 32 || (9 ≤ c.toNat && c.toNat ≤ 13)

/-- The libc predicate `isdigit`. -/
def isdigit (c : Char) : Bool :=
  48 ≤ c.toNat && c.toNat ≤ 57

/-- The value of a decimal digit string, most significant digit first,
continuing from `acc`. -/
def decimalValue (acc : Nat) (ds : List Char) : Nat :=
  ds.foldl (fun a c => a * 10 + (c.toNat - 48)) acc

/-- Reading decimal digits as `strtol` and the `ld` conversion do: the value
of the longest run of digits at the front, and the input left over. -/
def scanDigits (acc : Nat) : List Char → Nat × List Char
  | [] => (acc, [])
  | c :: cs => if isdigit c then scanDigits (acc * 10 + (c.toNat - 48)) cs else (acc, c :: cs)

/-- Reading an unsigned run of at least one digit, negated when `neg`. -/
def scanSigned (neg : Bool) (s : List Char) : Option (Int × List Char) :=
  match s with
  | [] => none
  | c :: cs =>
    if isdigit c then
      some (if neg then -((scanDigits 0 (c :: cs)).1 : Int) else ((scanDigits 0 (c :: cs)).1 : Int),
        (scanDigits 0 (c :: cs)).2)
    else none

/-- The integer at the front of a string as ISO C describes it for `strtol`
in base 10 and for the `ld` conversion of `sscanf`: optional white space, an
optional sign (character 45 is minus, 43 is plus), then at least one digit.
`none` when there is no such integer. The value is the mathematical one; its
storage in a `long` is `clampLong`. -/
def scanLong (s : List Char) : Option (Int × List Char) :=
  match s.dropWhile isspace with
  | [] => none
  | c :: cs =>
    if c.toNat = 45 then scanSigned true cs
    else if c.toNat = 43 then scanSigned false cs
    else scanSigned false (c :: cs)

/-- The libc function `atoi` as glibc implements it, `(int) strtol (s, NULL, 10)`:
the integer at the front of the string, saturated to the range of `long` and
then converted to `int`; 0 when there is no integer. -/
def atoi (s : List Char) : Int :=
  match scanLong s with
  | none => 0
  | some r => wrapInt (clampLong r.1)

/-- The call `sscanf (optarg, "%ld%c", &value, &xx)` as glibc implements it:
the number of items assigned (-1 when the input ends before the first
conversion) and the values of `value` and `xx` after the call; an integer
outside the range of `long` is stored saturated. -/
def sscanfLongChar (optarg : List Char) (value : Int) (xx : Char) : Int × Int × Char :=
  match scanLong optarg with
  | none => (if (optarg.dropWhile isspace).isEmpty then -1 else 0, value, xx)
  | some (v, []) => (1, clampLong v, xx)
  | some (v, c :: _) => (2, clampLong v, c)

/-- The `case` of option t in `main` (lines 272-311): the new `maximumTime`, or
the return of `main`. The conversion `double (value)` is `roundDouble`, the
products are double products. -/
def optionT (optarg : List Char) (maximumTime : ℚ) : Except Exit ℚ :=
  if optarg = ['n', 'o', 'n', 'e'] then Except.ok 100000000000000000000
  else
    let r := sscanfLongChar optarg 0 (Char.ofNat 32)
    let n := r.1
    let value := r.2.1
    let xx := r.2.2
    if n < 1 then Except.error ⟨1, Message.usage⟩
    else if n = 1 then Except.ok (roundDouble (value : ℚ))
    else if n = 2 then
      if xx = Char.ofNat 32 then Except.ok (roundDouble (value : ℚ))
      else if xx = 'm' then Except.ok (dmul 60 (roundDouble (value : ℚ)))
      else if xx = 'h' then Except.ok (dmul 3600 (roundDouble (value : ℚ)))
      else if xx = 'd' then Except.ok (dmul 86400 (roundDouble (value : ℚ)))
      else if xx = 'w' then Except.ok (dmul 604800 (roundDouble (value : ℚ)))
      else Except.error ⟨1, Message.usage⟩
    else Except.ok maximumTime

/-- The option loop of `main` (lines 221-329) over the successive results of
`getopt_long`: the settings when the options are exhausted, or the return of
`main` from inside the loop. -/
def optionLoop : List Opt → Settings → Except Exit Settings
  | [], st => Except.ok st
  | Opt.zero :: _, _ => Except.error ⟨1, Message.usage⟩
  | Opt.h :: _, _ => Except.error ⟨0, Message.help⟩
  | Opt.v :: _, _ => Except.error ⟨0, Message.version⟩
  | Opt.u :: rest, st => optionLoop rest { st with inputIsCompressed := true }
  | Opt.z :: rest, st => optionLoop rest { st with doCompressOutput := true }
  | Opt.t optarg :: rest, st =>
    match optionT optarg st.maximumTime with
    | Except.error e => Except.error e
    | Except.ok maximumTime => optionLoop rest { st with maximumTime := maximumTime }
  | Opt.s optarg :: rest, st => optionLoop rest { st with maximumSessions := atoi optarg }
  | Opt.invalid :: _, _ => Except.error ⟨1, Message.usage⟩
  | Opt.other :: rest, st => optionLoop rest st

/-- The default option values of `main` (lines 214-217). -/
def defaultSettings : Settings :=
  ⟨false, false, 20, 86400⟩

/-- The step "Sanitise options" of `main` (lines 333-341). -/
def sanitise (st : Settings) : Settings :=
  { st with
    maximumSessions :=
      if st.maximumSessions > 80 then 80
      else if st.maximumSessions < 1 then 1
      else st.maximumSessions
    maximumTime := if st.maximumTime < 1 then 1 else st.maximumTime }

/-- Option processing of `main` up to and including the sanitising step. -/
def processOptions (opts : List Opt) : Except Exit Settings :=
  match optionLoop opts defaultSettings with
  | Except.error e => Except.error e
  | Except.ok st => Except.ok (sanitise st)

/-- The argument of the last option s on the command line, if any. -/
def lastSessions : List Opt → Option (List Char)
  | [] => none
  | Opt.s optarg :: rest =>
    match lastSessions rest with
    | none => some optarg
    | some later => some later
  | _ :: rest => lastSessions rest

/-- The argument of the last option t on the command line, if any. -/
def lastTimeout : List Opt → Option (List Char)
  | [] => none
  | Opt.t optarg :: rest =>
    match lastTimeout rest with
    | none => some optarg
    | some later => some later
  | _ :: rest => lastTimeout rest

/-- The string starts, after optional white space, with an optionally signed
decimal integer: white space, then nothing, a plus or a minus, then a digit. -/
def StartsWithInteger (s : List Char) : Prop :=
  ∃ (ws sign : List Char) (d : Char) (rest : List Char),
    s = ws ++ sign ++ d :: rest ∧ (∀ c ∈ ws, isspace c = true) ∧
      (sign = [] ∨ sign = [Char.ofNat 43] ∨ sign = [Char.ofNat 45]) ∧ isdigit d = true

/-- The string `sign ++ ds` is a decimal integer with value `v`: `ds` is a
non-empty run of digits and `sign` is empty, a plus or a minus. -/
def IsDecimal (sign ds : List Char) (v : Int) : Prop :=
  ds ≠ [] ∧ (∀ c ∈ ds, isdigit c = true) ∧
    (((sign = [] ∨ sign = [Char.ofNat 43]) ∧ v = (decimalValue 0 ds : Int)) ∨
      (sign = [Char.ofNat 45] ∧ v = -(decimalValue 0 ds : Int)))

/-- Answers of an iteration at time `t` in which every `waitpid` says "still
running", `accept` yields descriptor 5 and `fork` fails with -1. -/
def forkFailsEnv (t : ℚ) : LoopEnv :=
  ⟨⟨t, fun _ => 0, fun _ => 0⟩, 5, false, -1, t⟩

/-! ## Rounding to double -/

theorem roundHalfEven_intCast (n : Int) : roundHalfEven (n : ℚ) = n := by
  simp [roundHalfEven]

theorem roundHalfEven_bounds (x : ℚ) : ⌊x⌋ ≤ roundHalfEven x ∧ roundHalfEven x ≤ ⌊x⌋ + 1 := by
  unfold roundHalfEven
  split_ifs <;> constructor <;> omega

theorem roundHalfEven_mono {x y : ℚ} (h : x ≤ y) : roundHalfEven x ≤ roundHalfEven y := by
  have hf : ⌊x⌋ ≤ ⌊y⌋ := Int.floor_mono h
  rcases lt_or_eq_of_le hf with hlt | heq
  · have h1 := (roundHalfEven_bounds x).2
    have h2 := (roundHalfEven_bounds y).1
    omega
  · unfold roundHalfEven
    rw [← heq]
    have hxy : x - ⌊x⌋ ≤ y - ⌊x⌋ := by linarith
    split_ifs <;> first | omega | (exfalso; linarith)

theorem roundHalfEven_below {x : ℚ} (f : Int) (h1 : (f : ℚ) ≤ x) (h2 : x - f < 1 / 2) :
    roundHalfEven x = f := by
  have hf : ⌊x⌋ = f := Int.floor_eq_iff.mpr ⟨h1, by linarith⟩
  simp only [roundHalfEven, hf, h2, if_true]

theorem roundHalfEven_above {x : ℚ} (f : Int) (h1 : 1 / 2 < x - f) (h2 : x < f + 1) :
    roundHalfEven x = f + 1 := by
  have hf : ⌊x⌋ = f := Int.floor_eq_iff.mpr ⟨by linarith, h2⟩
  have h3 : ¬ x - f < 1 / 2 := by linarith
  simp only [roundHalfEven, hf, h3, h1, if_false, if_true]

theorem roundHalfEven_tie {x : ℚ} (f : Int) (h1 : x = f + 1 / 2) (heven : f % 2 = 0) :
    roundHalfEven x = f := by
  have hf : ⌊x⌋ = f := Int.floor_eq_iff.mpr ⟨by linarith, by linarith⟩
  have h2 : ¬ x - f < 1 / 2 := by linarith
  have h3 : ¬ 1 / 2 < x - f := by linarith
  simp only [roundHalfEven, hf, h2, h3, heven, if_false, if_true]

theorem log_two_eq {q : ℚ} {k : Int} (hq : 0 < q) (h1 : (2 : ℚ) ^ k ≤ q)
    (h2 : q < (2 : ℚ) ^ (k + 1)) : Int.log 2 q = k := by
  have hb : 1 < 2 := by norm_num
  apply le_antisymm
  · have := (Int.lt_zpow_iff_log_lt (R := ℚ) hb hq (x := k + 1)).mp (by simpa using h2)
    omega
  · exact (Int.zpow_le_iff_le_log (R := ℚ) hb hq).mp (by simpa using h1)

theorem log_two_bounds {q : ℚ} (hq : 0 < q) :
    (2 : ℚ) ^ Int.log 2 q ≤ q ∧ q < (2 : ℚ) ^ (Int.log 2 q + 1) := by
  have hb : 1 < 2 := by norm_num
  have h1 := Int.zpow_log_le_self (R := ℚ) hb hq
  have h2 := Int.lt_zpow_succ_log_self (R := ℚ) hb q
  exact ⟨by simpa using h1, by simpa using h2⟩

theorem two_zpow_pos (e : Int) : (0 : ℚ) < 2 ^ e := zpow_pos (by norm_num) e

theorem roundPositive_eval {q : ℚ} {k : Int} (hq : 0 < q) (h1 : (2 : ℚ) ^ k ≤ q)
    (h2 : q < (2 : ℚ) ^ (k + 1)) :
    roundPositive q = (roundHalfEven (q / 2 ^ (k - 52)) : ℚ) * 2 ^ (k - 52) := by
  simp only [roundPositive, ulpExponent, log_two_eq hq h1 h2]

theorem scaled_bounds {q : ℚ} (hq : 0 < q) :
    ((4503599627370496 : Int) : ℚ) ≤ q / 2 ^ ulpExponent q ∧
      q / 2 ^ ulpExponent q ≤ ((9007199254740992 : Int) : ℚ) := by
  obtain ⟨h1, h2⟩ := log_two_bounds hq
  have hp := two_zpow_pos (ulpExponent q)
  have e1 : (2 : ℚ) ^ Int.log 2 q = 4503599627370496 * 2 ^ ulpExponent q := by
    have : (4503599627370496 : ℚ) = 2 ^ (52 : Int) := by norm_num
    rw [this, ← zpow_add₀ (by norm_num : (2 : ℚ) ≠ 0), ulpExponent]
    congr 1
    omega
  have e2 : (2 : ℚ) ^ (Int.log 2 q + 1) = 9007199254740992 * 2 ^ ulpExponent q := by
    have : (9007199254740992 : ℚ) = 2 ^ (53 : Int) := by norm_num
    rw [this, ← zpow_add₀ (by norm_num : (2 : ℚ) ≠ 0), ulpExponent]
    congr 1
    omega
  constructor
  · rw [le_div_iff₀ hp]
    push_cast
    linarith
  · rw [div_le_iff₀ hp]
    push_cast
    linarith

theorem roundHalfEven_scaled {q : ℚ} (hq : 0 < q) :
    4503599627370496 ≤ roundHalfEven (q / 2 ^ ulpExponent q) ∧
      roundHalfEven (q / 2 ^ ulpExponent q) ≤ 9007199254740992 := by
  obtain ⟨h1, h2⟩ := scaled_bounds hq
  have a := roundHalfEven_mono h1
  have b := roundHalfEven_mono h2
  rw [roundHalfEven_intCast] at a b
  exact ⟨a, b⟩

theorem roundPositive_pos {q : ℚ} (hq : 0 < q) : 0 < roundPositive q := by
  have h := (roundHalfEven_scaled hq).1
  have hp := two_zpow_pos (ulpExponent q)
  have : (0 : ℚ) < (roundHalfEven (q / 2 ^ ulpExponent q) : ℚ) := by
    have : (0 : Int) < roundHalfEven (q / 2 ^ ulpExponent q) := by omega
    exact_mod_cast this
  exact mul_pos this hp

/-- A value with a significand between 2^52 and 2^53 is a double. -/
theorem roundPositive_rep (m e : Int) (h1 : 4503599627370496 ≤ m) (h2 : m ≤ 9007199254740992) :
    roundPositive ((m : ℚ) * 2 ^ e) = (m : ℚ) * 2 ^ e := by
  have hp := two_zpow_pos e
  have key : ∀ (n f : Int), 4503599627370496 ≤ n → n < 9007199254740992 →
      roundPositive ((n : ℚ) * 2 ^ f) = (n : ℚ) * 2 ^ f := by
    intro n f hn1 hn2
    have hpf := two_zpow_pos f
    have hn1q : (4503599627370496 : ℚ) ≤ n := by exact_mod_cast hn1
    have hn2q : (n : ℚ) < 9007199254740992 := by exact_mod_cast hn2
    have hpos : (0 : ℚ) < (n : ℚ) * 2 ^ f := mul_pos (by linarith) hpf
    have e1 : (2 : ℚ) ^ (52 + f) = 4503599627370496 * 2 ^ f := by
      rw [zpow_add₀ (by norm_num : (2 : ℚ) ≠ 0)]
      norm_num
    have e2 : (2 : ℚ) ^ (52 + f + 1) = 9007199254740992 * 2 ^ f := by
      rw [show (52 + f + 1 : Int) = 53 + f by ring, zpow_add₀ (by norm_num : (2 : ℚ) ≠ 0)]
      norm_num
    have hlo : (2 : ℚ) ^ (52 + f) ≤ (n : ℚ) * 2 ^ f := by
      rw [e1]
      exact mul_le_mul_of_nonneg_right hn1q (le_of_lt hpf)
    have hhi : (n : ℚ) * 2 ^ f < (2 : ℚ) ^ (52 + f + 1) := by
      rw [e2]
      exact mul_lt_mul_of_pos_right hn2q hpf
    rw [roundPositive_eval hpos hlo hhi]
    have hsub : (52 + f - 52 : Int) = f := by ring
    rw [hsub, mul_div_assoc, div_self (ne_of_gt hpf), mul_one, roundHalfEven_intCast]
  rcases lt_or_eq_of_le h2 with hlt | heq
  · exact key m e h1 hlt
  · have := key 4503599627370496 (e + 1) (le_refl _) (by norm_num)
    have hrw : ((4503599627370496 : Int) : ℚ) * 2 ^ (e + 1) = (m : ℚ) * 2 ^ e := by
      rw [heq, zpow_add₀ (by norm_num : (2 : ℚ) ≠ 0)]
      push_cast
      ring
    rw [hrw] at this
    exact this

theorem roundPositive_idem {q : ℚ} (hq : 0 < q) :
    roundPositive (roundPositive q) = roundPositive q := by
  obtain ⟨h1, h2⟩ := roundHalfEven_scaled hq
  exact roundPositive_rep _ _ h1 h2

theorem roundPositive_mono {x y : ℚ} (hx : 0 < x) (h : x ≤ y) :
    roundPositive x ≤ roundPositive y := by
  have hy : 0 < y := lt_of_lt_of_le hx h
  have hlog : Int.log 2 x ≤ Int.log 2 y := Int.log_mono_right hx h
  rcases lt_or_eq_of_le hlog with hlt | heq
  · obtain ⟨_, hxhi⟩ := roundHalfEven_scaled hx
    obtain ⟨hylo, _⟩ := roundHalfEven_scaled hy
    have hxq : (roundHalfEven (x / 2 ^ ulpExponent x) : ℚ) ≤ 9007199254740992 := by
      exact_mod_cast hxhi
    have hyq : (4503599627370496 : ℚ) ≤ (roundHalfEven (y / 2 ^ ulpExponent y) : ℚ) := by
      exact_mod_cast hylo
    have hpx := two_zpow_pos (ulpExponent x)
    have hpy := two_zpow_pos (ulpExponent y)
    have hstep : (9007199254740992 : ℚ) * 2 ^ ulpExponent x ≤
        4503599627370496 * 2 ^ ulpExponent y := by
      have e1 : (9007199254740992 : ℚ) * 2 ^ ulpExponent x = 2 ^ (Int.log 2 x + 1) := by
        have : (9007199254740992 : ℚ) = 2 ^ (53 : Int) := by norm_num
        rw [this, ← zpow_add₀ (by norm_num : (2 : ℚ) ≠ 0), ulpExponent]
        congr 1
        omega
      have e2 : (4503599627370496 : ℚ) * 2 ^ ulpExponent y = 2 ^ Int.log 2 y := by
        have : (4503599627370496 : ℚ) = 2 ^ (52 : Int) := by norm_num
        rw [this, ← zpow_add₀ (by norm_num : (2 : ℚ) ≠ 0), ulpExponent]
        congr 1
        omega
      rw [e1, e2]
      exact zpow_le_zpow_right₀ (by norm_num) (by omega)
    calc roundPositive x
        ≤ 9007199254740992 * 2 ^ ulpExponent x :=
          mul_le_mul_of_nonneg_right hxq (le_of_lt hpx)
      _ ≤ 4503599627370496 * 2 ^ ulpExponent y := hstep
      _ ≤ roundPositive y := mul_le_mul_of_nonneg_right hyq (le_of_lt hpy)
  · have he : ulpExponent x = ulpExponent y := by simp [ulpExponent, heq]
    unfold roundPositive
    rw [he]
    have hp := two_zpow_pos (ulpExponent y)
    have hdiv : x / 2 ^ ulpExponent y ≤ y / 2 ^ ulpExponent y :=
      div_le_div_of_nonneg_right h (le_of_lt hp)
    have := roundHalfEven_mono hdiv
    exact mul_le_mul_of_nonneg_right (by exact_mod_cast this) (le_of_lt hp)

theorem roundDouble_mono {x y : ℚ} (h : x ≤ y) : roundDouble x ≤ roundDouble y := by
  unfold roundDouble
  by_cases hx : 0 < x
  · have hy : 0 < y := lt_of_lt_of_le hx h
    simp only [hx, hy, if_true]
    exact roundPositive_mono hx h
  · by_cases hx2 : x < 0
    · simp only [hx, hx2, if_false, if_true]
      have hnx : 0 < -x := by linarith
      have hrx := roundPositive_pos hnx
      by_cases hy : 0 < y
      · simp only [hy, if_true]
        have := roundPositive_pos hy
        linarith
      · by_cases hy2 : y < 0
        · simp only [hy, hy2, if_false, if_true]
          have hny : 0 < -y := by linarith
          have := roundPositive_mono hny (by linarith : -y ≤ -x)
          linarith
        · simp only [hy, hy2, if_false]
          linarith
    · have hx0 : x = 0 := le_antisymm (not_lt.mp hx) (not_lt.mp hx2)
      subst hx0
      simp only [lt_irrefl, if_false]
      by_cases hy : 0 < y
      · simp only [hy, if_true]
        exact le_of_lt (roundPositive_pos hy)
      · have hy0 : y = 0 := le_antisymm (not_lt.mp hy) h
        subst hy0
        simp

theorem roundDouble_idem (q : ℚ) : roundDouble (roundDouble q) = roundDouble q := by
  unfold roundDouble
  by_cases hq : 0 < q
  · have := roundPositive_pos hq
    simp only [hq, this, if_true]
    exact roundPositive_idem hq
  · by_cases hq2 : q < 0
    · have hn : 0 < -q := by linarith
      have hp := roundPositive_pos hn
      have h1 : ¬ 0 < -roundPositive (-q) := by linarith
      have h2 : -roundPositive (-q) < 0 := by linarith
      simp only [hq, hq2, h1, h2, if_false, if_true, neg_neg]
      rw [roundPositive_idem hn]
    · simp [hq, hq2]

/-- A double is not above the rounding of anything it is not above. -/
theorem le_roundDouble {d x : ℚ} (hd : IsDouble d) (h : d ≤ x) : d ≤ roundDouble x := by
  have := roundDouble_mono h
  rw [hd] at this
  exact this

theorem roundDouble_intCast (n : Int) (h1 : -9007199254740992 ≤ n) (h2 : n ≤ 9007199254740992) :
    roundDouble (n : ℚ) = n := by
  have key : ∀ m : Int, 0 < m → m ≤ 9007199254740992 → roundPositive (m : ℚ) = m := by
    intro m hm1 hm2
    have hmq : (0 : ℚ) < m := by exact_mod_cast hm1
    rcases lt_or_eq_of_le hm2 with hlt | heq
    · obtain ⟨hlo, hhi⟩ := log_two_bounds hmq
      have hk : Int.log 2 (m : ℚ) < 53 := by
        have hb : 1 < 2 := by norm_num
        have : (m : ℚ) < ((2 : ℕ) : ℚ) ^ (53 : Int) := by
          have : (m : ℚ) < 9007199254740992 := by exact_mod_cast hlt
          norm_num
          exact this
        exact (Int.lt_zpow_iff_log_lt (R := ℚ) hb hmq).mp this
      have hj : (0 : Int) ≤ 52 - Int.log 2 (m : ℚ) := by omega
      obtain ⟨j, hj2⟩ := Int.eq_ofNat_of_zero_le hj
      have hexp : ulpExponent (m : ℚ) = -(j : Int) := by
        unfold ulpExponent
        omega
      unfold roundPositive
      rw [hexp]
      have hdiv : (m : ℚ) / 2 ^ (-(j : Int)) = ((m * 2 ^ j : Int) : ℚ) := by
        rw [zpow_neg, zpow_natCast]
        push_cast
        field_simp
      rw [hdiv, roundHalfEven_intCast, zpow_neg, zpow_natCast]
      push_cast
      field_simp
    · have := roundPositive_rep 9007199254740992 0 (by norm_num) (le_refl _)
      rw [heq]
      simpa using this
  unfold roundDouble
  by_cases hn : 0 < n
  · have hnq : (0 : ℚ) < n := by exact_mod_cast hn
    simp only [hnq, if_true]
    exact key n hn h2
  · by_cases hn2 : n < 0
    · have hnq : ¬ (0 : ℚ) < n := by
        have : (n : ℚ) < 0 := by exact_mod_cast hn2
        linarith
      have hnq2 : (n : ℚ) < 0 := by exact_mod_cast hn2
      simp only [hnq, hnq2, if_false, if_true]
      have := key (-n) (by omega) (by omega)
      push_cast at this
      rw [this]
      ring
    · have : n = 0 := by omega
      subst this
      simp




theorem dadd_fourteen_nine :
    dadd (8387954305977549 / 562949953421312) 2 = 2378463553205043 / 140737488355328 := by
  have hx : (8387954305977549 / 562949953421312 : ℚ) + 2 = 9513854212820173 / 562949953421312 := by
    norm_num
  have hpos : (0 : ℚ) < 9513854212820173 / 562949953421312 := by norm_num
  have hk : (4 - 52 : Int) = -48 := by norm_num
  have hp : (2 : ℚ) ^ (-48 : Int) = 1 / 281474976710656 := by norm_num [zpow_neg]
  unfold dadd roundDouble
  rw [hx, if_pos hpos, roundPositive_eval (k := 4) hpos (by norm_num) (by norm_num), hk, hp,
    roundHalfEven_tie 4756927106410086 (by norm_num) (by decide)]
  norm_num

theorem dadd_point_seven :
    dadd (3152519739159347 / 4503599627370496) 10 = 3011782250804019 / 281474976710656 := by
  have hx : (3152519739159347 / 4503599627370496 : ℚ) + 10 =
      48188516012864307 / 4503599627370496 := by norm_num
  have hpos : (0 : ℚ) < 48188516012864307 / 4503599627370496 := by norm_num
  have hk : (3 - 52 : Int) = -49 := by norm_num
  have hp : (2 : ℚ) ^ (-49 : Int) = 1 / 562949953421312 := by norm_num [zpow_neg]
  unfold dadd roundDouble
  rw [hx, if_pos hpos, roundPositive_eval (k := 3) hpos (by norm_num) (by norm_num), hk, hp,
    roundHalfEven_below 6023564501608038 (by norm_num) (by norm_num)]
  norm_num

theorem roundDouble_two_pow_53_succ :
    roundDouble (((9007199254740993 : Int) : ℚ)) = 9007199254740992 := by
  have hpos : (0 : ℚ) < ((9007199254740993 : Int) : ℚ) := by norm_num
  have hk : (53 - 52 : Int) = 1 := by norm_num
  unfold roundDouble
  rw [if_pos hpos, roundPositive_eval (k := 53) hpos (by norm_num) (by norm_num), hk,
    roundHalfEven_tie 4503599627370496 (by norm_num) (by decide)]
  norm_num

theorem isDouble_roundDouble (q : ℚ) : IsDouble (roundDouble q) :=
  roundDouble_idem q

theorem isDouble_dadd (a b : ℚ) : IsDouble (dadd a b) :=
  roundDouble_idem (a + b)

theorem le_dadd_two {d : ℚ} (hd : IsDouble d) : d ≤ dadd d 2 :=
  le_roundDouble hd (by linarith)

theorem isDouble_ten : IsDouble 10 := by
  have := roundDouble_intCast 10 (by norm_num) (by norm_num)
  unfold IsDouble
  simpa using this

theorem dadd_ten_two : dadd 10 2 = 12 := by
  have := roundDouble_intCast 12 (by norm_num) (by norm_num)
  norm_num [dadd]
  simpa using this

theorem dadd_one_ten : dadd 1 10 = 11 := by
  have := roundDouble_intCast 11 (by norm_num) (by norm_num)
  norm_num [dadd]
  simpa using this

theorem dadd_two_ten : dadd 2 10 = 12 := by
  have := roundDouble_intCast 12 (by norm_num) (by norm_num)
  norm_num [dadd]
  simpa using this

/-! ## The reaper pass, slot by slot -/

theorem checkUpStep_length (env : PassEnv) (acc : ProcessList × List (Nat × Event)) (j : Nat) :
    (checkUpStep env acc j).1.length = acc.1.length := by
  unfold checkUpStep
  split <;> simp

theorem checkUpFold_length (env : PassEnv) (n : Nat) (acc : ProcessList × List (Nat × Event)) :
    ((List.range n).foldl (checkUpStep env) acc).1.length = acc.1.length := by
  induction n with
  | zero => simp
  | succ n ih => simp [List.range_succ, List.foldl_append, checkUpStep_length, ih]

theorem checkUpStep_get (env : PassEnv) (acc : ProcessList × List (Nat × Event)) (n j : Nat) :
    (checkUpStep env acc n).1[j]? =
      if j = n then
        (acc.1[j]?).map (fun p => (checkKid env.timeNow (env.waitpid j) (env.kill j) p).1)
      else acc.1[j]? := by
  unfold checkUpStep
  cases hc : acc.1[n]? with
  | none =>
    by_cases h : j = n
    · subst h; simp [hc]
    · simp [h]
  | some proc =>
    by_cases h : j = n
    · subst h
      have hlen : j < acc.1.length := (List.getElem?_eq_some_iff.mp hc).1
      simp [hc, hlen, List.getElem?_set]
    · have h2 : ¬ n = j := fun e => h e.symm
      simp [h, h2, List.getElem?_set]

theorem checkUpFold_get (env : PassEnv) (n : Nat) (acc : ProcessList × List (Nat × Event))
    (j : Nat) :
    ((List.range n).foldl (checkUpStep env) acc).1[j]? =
      if j < n then
        (acc.1[j]?).map (fun p => (checkKid env.timeNow (env.waitpid j) (env.kill j) p).1)
      else acc.1[j]? := by
  induction n generalizing j with
  | zero => simp
  | succ n ih =>
    rw [List.range_succ, List.foldl_append, List.foldl_cons, List.foldl_nil, checkUpStep_get, ih j]
    by_cases h : j = n
    · subst h; simp
    · by_cases h1 : j < n
      · have : j < n + 1 := by omega
        simp [h, h1, this]
      · have : ¬ j < n + 1 := by omega
        simp [h, h1, this]

theorem checkUpStep_slotLog (env : PassEnv) (acc : ProcessList × List (Nat × Event)) (n j : Nat) :
    slotLog j (checkUpStep env acc n).2 =
      slotLog j acc.2 ++
        if j = n then
          ((acc.1[j]?).map
            (fun p => (checkKid env.timeNow (env.waitpid j) (env.kill j) p).2)).getD []
        else [] := by
  unfold checkUpStep slotLog
  cases hc : acc.1[n]? with
  | none =>
    by_cases h : j = n
    · subst h; simp [hc]
    · simp [h]
  | some proc =>
    by_cases h : j = n
    · subst h
      simp [hc, List.filter_map, Function.comp_def]
    · have h2 : ¬ n = j := fun e => h e.symm
      simp [h, h2, List.filter_map, Function.comp_def]

theorem checkUpFold_slotLog (env : PassEnv) (n : Nat) (acc : ProcessList × List (Nat × Event))
    (j : Nat) :
    slotLog j ((List.range n).foldl (checkUpStep env) acc).2 =
      slotLog j acc.2 ++
        if j < n then
          ((acc.1[j]?).map
            (fun p => (checkKid env.timeNow (env.waitpid j) (env.kill j) p).2)).getD []
        else [] := by
  induction n generalizing j with
  | zero => simp
  | succ n ih =>
    rw [List.range_succ, List.foldl_append, List.foldl_cons, List.foldl_nil, checkUpStep_slotLog,
      ih j, checkUpFold_get]
    by_cases h : j = n
    · subst h; simp
    · by_cases h1 : j < n
      · have : j < n + 1 := by omega
        simp [h, h1, this]
      · have : ¬ j < n + 1 := by omega
        simp [h, h1, this]

/-- After a pass, a slot below `maximumSessions` holds what the loop body makes
of its old record, and every other slot is untouched. -/
theorem checkUpOnTheKids_get (env : PassEnv) (children : ProcessList) (M : Int) (j : Nat) :
    (checkUpOnTheKids env children M).1[j]? =
      if j < M.toNat then
        (children[j]?).map (fun p => (checkKid env.timeNow (env.waitpid j) (env.kill j) p).1)
      else children[j]? :=
  checkUpFold_get env M.toNat (children, []) j

/-- The events a pass issues for slot `j` are those of the loop body on its
old record. -/
theorem checkUpOnTheKids_slotLog (env : PassEnv) (children : ProcessList) (M : Int) (j : Nat) :
    slotLog j (checkUpOnTheKids env children M).2 =
      if j < M.toNat then
        ((children[j]?).map
          (fun p => (checkKid env.timeNow (env.waitpid j) (env.kill j) p).2)).getD []
      else [] := by
  have := checkUpFold_slotLog env M.toNat (children, []) j
  simpa [slotLog] using this

theorem checkUpOnTheKids_length (env : PassEnv) (children : ProcessList) (M : Int) :
    (checkUpOnTheKids env children M).1.length = children.length :=
  checkUpFold_length env M.toNat (children, [])

/-! ## findSlot -/

theorem findSlotLoop_spec (children : ProcessList) (r j : Nat) :
    (findSlotLoop children r j = -1 ∧
        ∀ k, j ≤ k → k < j + r → pidAt children k ≠ some (-1)) ∨
      (∃ k : Nat, findSlotLoop children r j = (k : Int) ∧ j ≤ k ∧ k < j + r ∧
        pidAt children k = some (-1) ∧
        ∀ i, j ≤ i → i < k → pidAt children i ≠ some (-1)) := by
  induction r generalizing j with
  | zero =>
    left
    exact ⟨rfl, fun k h1 h2 => by omega⟩
  | succ r ih =>
    have hstep : ∀ (hnot : pidAt children j ≠ some (-1)),
        (findSlotLoop children r (j + 1) = -1 ∧
            ∀ k, j ≤ k → k < j + (r + 1) → pidAt children k ≠ some (-1)) ∨
          (∃ k : Nat, findSlotLoop children r (j + 1) = (k : Int) ∧ j ≤ k ∧ k < j + (r + 1) ∧
            pidAt children k = some (-1) ∧
            ∀ i, j ≤ i → i < k → pidAt children i ≠ some (-1)) := by
      intro hnot
      rcases ih (j + 1) with ⟨h1, h2⟩ | ⟨k, h1, h2, h3, h4, h5⟩
      · left
        refine ⟨h1, fun k hk1 hk2 => ?_⟩
        by_cases hk : k = j
        · subst hk; exact hnot
        · exact h2 k (by omega) (by omega)
      · right
        refine ⟨k, h1, by omega, by omega, h4, fun i hi1 hi2 => ?_⟩
        by_cases hi : i = j
        · subst hi; exact hnot
        · exact h5 i (by omega) hi2
    unfold findSlotLoop
    cases hc : children[j]? with
    | none =>
      simp only []
      exact hstep (by simp [pidAt, hc])
    | some proc =>
      simp only []
      by_cases hp : proc.pid = -1
      · right
        refine ⟨j, by simp [hp], le_refl j, by omega, by simp [pidAt, hc, hp], ?_⟩
        intro i h1 h2
        omega
      · simp only [hp, if_false]
        exact hstep (by simp [pidAt, hc, hp])

theorem findSlot_spec (children : ProcessList) (M : Int) :
    (findSlot children M = -1 ↔
        ∀ j : Nat, (j : Int) < M → pidAt children j ≠ some (-1)) ∧
      (∀ j : Nat, findSlot children M = (j : Int) ↔
        ((j : Int) < M ∧ pidAt children j = some (-1) ∧
          ∀ k : Nat, k < j → pidAt children k ≠ some (-1))) ∧
      (findSlot children M = -1 ∨ ∃ k : Nat, findSlot children M = (k : Int) ∧ (k : Int) < M) := by
  unfold findSlot
  rcases findSlotLoop_spec children M.toNat 0 with ⟨h1, h2⟩ | ⟨k, h1, _, h3, h4, h5⟩
  · rw [h1]
    refine ⟨⟨fun _ j hj => h2 j (Nat.zero_le j) (by omega), fun _ => rfl⟩, ?_, Or.inl rfl⟩
    intro j
    constructor
    · intro h; omega
    · rintro ⟨hj, hfree, _⟩
      exact absurd hfree (h2 j (Nat.zero_le j) (by omega))
  · rw [h1]
    refine ⟨⟨fun h => by omega, fun h => absurd h4 (h (k) (by omega))⟩, ?_,
      Or.inr ⟨k, rfl, by omega⟩⟩
    intro j
    constructor
    · intro h
      have hjk : k = j := by exact_mod_cast h
      subst hjk
      exact ⟨by omega, h4, fun i hi => h5 i (Nat.zero_le i) hi⟩
    · rintro ⟨hj, hfree, hmin⟩
      have hjk : k = j := by
        rcases Nat.lt_trichotomy k j with h | h | h
        · exact absurd h4 (hmin k h)
        · exact h
        · exact absurd hfree (h5 j (Nat.zero_le j) h)
      rw [hjk]

/-- C7: for a table of `MAXIMUM_CONNECTIONS` slots and `M` in [1,80], `findSlot`
returns -1 exactly when no slot with index below `M` is free (holds pid -1), and
it returns the index `j` exactly when `j` is the smallest index below `M` whose
slot is free; its result is -1 or an index below `M`. The table is a `const`
argument: the function yields nothing but the index. -/
theorem findSlot_first_free (children : ProcessList) (M : Int)
    (hlen : children.length = MAXIMUM_CONNECTIONS) (hM1 : 1 ≤ M) (hM2 : M ≤ 80) :
    (findSlot children M = -1 ↔
        ∀ j : Nat, (j : Int) < M → pidAt children j ≠ some (-1)) ∧
      (∀ j : Nat, findSlot children M = (j : Int) ↔
        ((j : Int) < M ∧ pidAt children j = some (-1) ∧
          ∀ k : Nat, k < j → pidAt children k ≠ some (-1))) ∧
      (-1 ≤ findSlot children M ∧ findSlot children M < M) := by
  have _ := hlen
  have _ := hM2
  obtain ⟨h1, h2, h3⟩ := findSlot_spec children M
  refine ⟨h1, h2, ?_⟩
  rcases h3 with h | ⟨k, hk, hlt⟩
  · rw [h]; omega
  · rw [hk]; omega

/-- A table of 80 slots whose first two slots are taken and whose third is free. -/
theorem findSlot_first_free_witness :
    (80 : Nat) = MAXIMUM_CONNECTIONS ∧
      (findSlot
          (⟨41, ProcessState.psRunning, 9⟩ :: ⟨42, ProcessState.psKilled, 3⟩ ::
            List.replicate 78 ⟨-1, ProcessState.psRunning, 0⟩) 20 = (2 : Nat) ↔
        (((2 : Nat) : Int) < 20 ∧
          pidAt
              (⟨41, ProcessState.psRunning, 9⟩ :: ⟨42, ProcessState.psKilled, 3⟩ ::
                List.replicate 78 ⟨-1, ProcessState.psRunning, 0⟩) 2 = some (-1) ∧
          ∀ k : Nat, k < 2 →
            pidAt
                (⟨41, ProcessState.psRunning, 9⟩ :: ⟨42, ProcessState.psKilled, 3⟩ ::
                  List.replicate 78 ⟨-1, ProcessState.psRunning, 0⟩) k ≠ some (-1))) :=
  ⟨rfl, (findSlot_first_free _ 20 (by simp [MAXIMUM_CONNECTIONS]) (by decide)
    (by decide)).2.1 2⟩

/-- The `kill` calls a pass issues for slot `j`, from the loop body. -/
theorem checkUpOnTheKids_killsTo (env : PassEnv) (children : ProcessList) (M : Int) (j : Nat)
    (proc : ProcessData) (hj : (j : Int) < M) (hget : children[j]? = some proc) :
    killsTo j (checkUpOnTheKids env children M).2 =
      (checkKid env.timeNow (env.waitpid j) (env.kill j) proc).2.filter (fun e => match e with
        | Event.kill _ _ => true
        | _ => false) := by
  have hj2 : j < M.toNat := by omega
  simp [killsTo, checkUpOnTheKids_slotLog, hj2, hget]

theorem checkUpOnTheKids_slot (env : PassEnv) (children : ProcessList) (M : Int) (j : Nat)
    (proc : ProcessData) (hj : (j : Int) < M) (hget : children[j]? = some proc) :
    (checkUpOnTheKids env children M).1[j]? =
      some (checkKid env.timeNow (env.waitpid j) (env.kill j) proc).1 := by
  have hj2 : j < M.toNat := by omega
  simp [checkUpOnTheKids_get, hj2, hget]

/-- C2: in a reaper pass, a slot below `M` that is in use (pid >= 0) before the
pass is free (pid -1) after it if and only if its `waitpid` returned the pid of
its process, whatever its state and deadline; and when it did, no `kill` is
issued for that slot in the pass. -/
theorem reaper_frees_iff_exited (env : PassEnv) (children : ProcessList) (M : Int) (j : Nat)
    (proc : ProcessData) (hj : (j : Int) < M) (hget : children[j]? = some proc)
    (hocc : 0 ≤ proc.pid) :
    (pidAt (checkUpOnTheKids env children M).1 j = some (-1) ↔ env.waitpid j = proc.pid) ∧
      (env.waitpid j = proc.pid → killsTo j (checkUpOnTheKids env children M).2 = []) := by
  rw [checkUpOnTheKids_killsTo env children M j proc hj hget, pidAt,
    checkUpOnTheKids_slot env children M j proc hj hget]
  have hne : proc.pid ≠ -1 := by omega
  constructor
  · constructor
    · intro h
      by_contra hw
      unfold checkKid at h
      simp only [hocc, if_true, hw, if_false] at h
      by_cases h1 : env.waitpid j = -1
      · simp [h1, hne] at h
      · simp only [h1, if_false] at h
        split at h
        · split at h
          · simp [hne] at h
          · split at h <;> simp [hne] at h
          · simp [hne] at h
        · simp [hne] at h
    · intro hw
      have h1 : ¬ env.waitpid j = -1 := by omega
      simp [checkKid, hocc, hw, hne]
  · intro hw
    have h1 : ¬ proc.pid = -1 := hne
    simp [checkKid, hocc, hw, h1]

/-- A pass over a table whose slot 1 holds process 42 in state psKilled, long
past its deadline, with `waitpid` reporting 42 as exited. -/
theorem reaper_frees_iff_exited_witness :
    (pidAt (checkUpOnTheKids ⟨100, fun _ => 42, fun _ => 0⟩
        (⟨41, ProcessState.psRunning, 9⟩ :: ⟨42, ProcessState.psKilled, 3⟩ ::
          List.replicate 78 ⟨-1, ProcessState.psRunning, 0⟩) 20).1 1 = some (-1) ↔
        (42 : Int) = 42) ∧
      ((42 : Int) = 42 →
        killsTo 1 (checkUpOnTheKids ⟨100, fun _ => 42, fun _ => 0⟩
          (⟨41, ProcessState.psRunning, 9⟩ :: ⟨42, ProcessState.psKilled, 3⟩ ::
            List.replicate 78 ⟨-1, ProcessState.psRunning, 0⟩) 20).2 = []) :=
  reaper_frees_iff_exited ⟨100, fun _ => 42, fun _ => 0⟩
    (⟨41, ProcessState.psRunning, 9⟩ :: ⟨42, ProcessState.psKilled, 3⟩ ::
      List.replicate 78 ⟨-1, ProcessState.psRunning, 0⟩) 20 1
    ⟨42, ProcessState.psKilled, 3⟩ (by decide) rfl (by decide)

/-- C3 as stated fails: slot 0 holds process 41 in state psTerminated with the
deadline 14.9 (as a double), and the pass comes at time 16.9 (as a double), with
`waitpid` answering 0. The pass sends SIGKILL and the state becomes psKilled,
although 16.9 is below the exact sum of the deadline and 2: the sum the code
compares with is rounded to 16.9. -/
theorem kill_below_exact_grace_bound :
    (checkUpOnTheKids ⟨2378463553205043 / 140737488355328, fun _ => 0, fun _ => 0⟩
        graceExample 20).1[0]? =
        some ⟨41, ProcessState.psKilled, 8387954305977549 / 562949953421312⟩ ∧
      killsTo 0 (checkUpOnTheKids ⟨2378463553205043 / 140737488355328, fun _ => 0, fun _ => 0⟩
        graceExample 20).2 = [Event.kill 41 Signal.SIGKILL] ∧
      ¬ ((2378463553205043 / 140737488355328 : ℚ) ≥
        8387954305977549 / 562949953421312 + 2) := by
  refine ⟨?_, ?_, by norm_num⟩
  · rw [checkUpOnTheKids_slot _ graceExample 20 0
      ⟨41, ProcessState.psTerminated, 8387954305977549 / 562949953421312⟩ (by decide) rfl]
    norm_num [checkKid, dadd_fourteen_nine]
  · rw [checkUpOnTheKids_killsTo _ graceExample 20 0
      ⟨41, ProcessState.psTerminated, 8387954305977549 / 562949953421312⟩ (by decide) rfl]
    norm_num [checkKid, dadd_fourteen_nine]

/-- C3, amended: in a reaper pass at time `t`, for a slot below `M` that is in
use, whose deadline is a double and whose `waitpid` reports neither an error nor
the exit of its process: before the deadline the record is unchanged and no
`kill` is issued; from the deadline on, a psRunning record gets SIGTERM and
becomes psTerminated; a psTerminated record gets SIGKILL and becomes psKilled
exactly when `t >= deadline + 2.0`, the sum being the double sum the code
computes (the exact sum rounded to the nearest double), and is otherwise left
alone; a psKilled record is left alone. Pid and deadline never change, and the
return value of `kill` plays no part. -/
theorem reaper_escalation (env : PassEnv) (children : ProcessList) (M : Int) (j : Nat)
    (proc : ProcessData) (hj : (j : Int) < M) (hget : children[j]? = some proc)
    (hocc : 0 ≤ proc.pid) (herr : env.waitpid j ≠ -1) (hrun : env.waitpid j ≠ proc.pid)
    (hdouble : IsDouble proc.expiryTime) :
    (env.timeNow < proc.expiryTime →
        (checkUpOnTheKids env children M).1[j]? = some proc ∧
          killsTo j (checkUpOnTheKids env children M).2 = []) ∧
      (proc.expiryTime ≤ env.timeNow → proc.state = ProcessState.psRunning →
        (checkUpOnTheKids env children M).1[j]? =
            some ⟨proc.pid, ProcessState.psTerminated, proc.expiryTime⟩ ∧
          killsTo j (checkUpOnTheKids env children M).2 = [Event.kill proc.pid Signal.SIGTERM]) ∧
      (proc.state = ProcessState.psTerminated → dadd proc.expiryTime 2 ≤ env.timeNow →
        (checkUpOnTheKids env children M).1[j]? =
            some ⟨proc.pid, ProcessState.psKilled, proc.expiryTime⟩ ∧
          killsTo j (checkUpOnTheKids env children M).2 = [Event.kill proc.pid Signal.SIGKILL]) ∧
      (proc.state = ProcessState.psTerminated → env.timeNow < dadd proc.expiryTime 2 →
        (checkUpOnTheKids env children M).1[j]? = some proc ∧
          killsTo j (checkUpOnTheKids env children M).2 = []) ∧
      (proc.state = ProcessState.psKilled →
        (checkUpOnTheKids env children M).1[j]? = some proc ∧
          killsTo j (checkUpOnTheKids env children M).2 = []) := by
  rw [checkUpOnTheKids_killsTo env children M j proc hj hget,
    checkUpOnTheKids_slot env children M j proc hj hget]
  obtain ⟨pid, state, expiry⟩ := proc
  simp only at hocc hrun hdouble ⊢
  refine ⟨?_, ?_, ?_, ?_, ?_⟩
  · intro ht
    have : ¬ expiry ≤ env.timeNow := not_le.mpr ht
    simp [checkKid, hocc, herr, hrun, this]
  · intro ht hs
    subst hs
    by_cases hk : env.kill j < 0 <;> simp [checkKid, hocc, herr, hrun, ht, hk]
  · intro hs ht
    subst hs
    have h0 : expiry ≤ env.timeNow := le_trans (le_dadd_two hdouble) ht
    by_cases hk : env.kill j < 0 <;> simp [checkKid, hocc, herr, hrun, ht, h0, hk]
  · intro hs ht
    subst hs
    have : ¬ dadd expiry 2 ≤ env.timeNow := not_le.mpr ht
    by_cases h0 : expiry ≤ env.timeNow <;> simp [checkKid, hocc, herr, hrun, this, h0]
  · intro hs
    subst hs
    by_cases h0 : expiry ≤ env.timeNow <;> simp [checkKid, hocc, herr, hrun, h0]

/-- In a pass at time 12, slot 0 holds process 41 in state psTerminated with
deadline 10, `waitpid` answers 0 and `kill` fails: SIGKILL is sent and the state
becomes psKilled all the same. -/
theorem reaper_escalation_witness :
    (checkUpOnTheKids ⟨12, fun _ => 0, fun _ => -1⟩
        (⟨41, ProcessState.psTerminated, 10⟩ ::
          List.replicate 79 ⟨-1, ProcessState.psRunning, 0⟩) 20).1[0]? =
        some ⟨41, ProcessState.psKilled, 10⟩ ∧
      killsTo 0 (checkUpOnTheKids ⟨12, fun _ => 0, fun _ => -1⟩
        (⟨41, ProcessState.psTerminated, 10⟩ ::
          List.replicate 79 ⟨-1, ProcessState.psRunning, 0⟩) 20).2 =
        [Event.kill 41 Signal.SIGKILL] :=
  (reaper_escalation ⟨12, fun _ => 0, fun _ => -1⟩
    (⟨41, ProcessState.psTerminated, 10⟩ :: List.replicate 79 ⟨-1, ProcessState.psRunning, 0⟩)
    20 0 ⟨41, ProcessState.psTerminated, 10⟩ (by decide) rfl (by decide) (by decide)
    (by decide) isDouble_ten).2.2.1 rfl
    (by show dadd 10 2 ≤ 12; rw [dadd_ten_two])

/-! ## The slot table under the accept loop -/

theorem occupiedCount_le (children : ProcessList) (n : Nat)
    (h : ∀ j, n ≤ j → j < children.length → pidAt children j = some (-1)) :
    occupiedCount children ≤ n := by
  unfold occupiedCount
  rw [← List.take_append_drop n children, List.countP_append]
  have h1 : List.countP (fun p => decide (p.pid ≠ -1)) (List.take n children) ≤ n :=
    le_trans (List.countP_le_length _) (by rw [List.length_take]; exact Nat.min_le_left _ _)
  have h2 : List.countP (fun p => decide (p.pid ≠ -1)) (List.drop n children) = 0 := by
    rw [List.countP_eq_zero]
    intro a ha
    obtain ⟨i, hi, rfl⟩ := List.getElem_of_mem ha
    have hlen : n + i < children.length := by
      simp only [List.length_drop] at hi
      omega
    have := h (n + i) (by omega) hlen
    simp only [pidAt, List.getElem?_eq_getElem hlen, Option.map_some', Option.some.injEq] at this
    simp [List.getElem_drop, this]
  omega

theorem TableShape_pass (env : PassEnv) (children : ProcessList) (M : Int)
    (h : TableShape M children) : TableShape M (checkUpOnTheKids env children M).1 := by
  refine ⟨by rw [checkUpOnTheKids_length]; exact h.1, fun j hj1 hj2 => ?_⟩
  have hj : ¬ j < M.toNat := by omega
  rw [pidAt, checkUpOnTheKids_get, if_neg hj]
  exact h.2 j hj1 hj2

theorem TableShape_set (children : ProcessList) (M : Int) (k : Nat) (p : ProcessData)
    (hk : (k : Int) < M) (h : TableShape M children) : TableShape M (children.set k p) := by
  refine ⟨by rw [List.length_set]; exact h.1, fun j hj1 hj2 => ?_⟩
  have hne : k ≠ j := by omega
  rw [pidAt, List.getElem?_set_ne hne]
  exact h.2 j hj1 hj2

theorem findSlot_lt (children : ProcessList) (M : Int) (h : ¬ findSlot children M < 0) :
    ((findSlot children M).toNat : Int) = findSlot children M ∧ findSlot children M < M := by
  unfold findSlot at h ⊢
  rcases findSlotLoop_spec children M.toNat 0 with ⟨h1, _⟩ | ⟨k, h1, _, h3, _, _⟩
  · rw [h1] at h; omega
  · rw [h1]; omega

theorem TableShape_iteration (listenFd : Int) (M : Int) (maximumTime : ℚ) (env : LoopEnv)
    (children next : ProcessList) (h : TableShape M children)
    (hnext : (loopIteration listenFd M maximumTime env children).1 = LoopOutcome.continues next) :
    TableShape M next := by
  have hp := TableShape_pass env.pass children M h
  unfold loopIteration at hnext
  simp only at hnext
  split at hnext
  · simp only [LoopOutcome.continues.injEq] at hnext
    exact hnext ▸ hp
  · rename_i hslot
    split at hnext
    · simp only [LoopOutcome.continues.injEq] at hnext
      exact hnext ▸ hp
    · split at hnext
      · simp only [LoopOutcome.continues.injEq] at hnext
        exact hnext ▸ hp
      · split at hnext
        · simp only [LoopOutcome.continues.injEq] at hnext
          rw [← hnext]
          have := findSlot_lt _ M hslot
          exact TableShape_set _ M _ _ (by omega) hp
        · simp at hnext

theorem TableShape_mainLoop (listenFd : Int) (M : Int) (maximumTime : ℚ) (envs : List LoopEnv)
    (start children : ProcessList) (h : TableShape M start)
    (hrun : (mainLoop listenFd M maximumTime envs start).1 = LoopOutcome.continues children) :
    TableShape M children := by
  induction envs generalizing start with
  | nil =>
    simp only [mainLoop, LoopOutcome.continues.injEq] at hrun
    exact hrun ▸ h
  | cons env rest ih =>
    unfold mainLoop at hrun
    split at hrun
    · rename_i next log heq
      have hn : (loopIteration listenFd M maximumTime env start).1 = LoopOutcome.continues next := by
        rw [heq]
      exact ih next (TableShape_iteration listenFd M maximumTime env start next h hn) hrun
    · simp at hrun

theorem StartupTable_shape (M : Int) (children : ProcessList) (h : StartupTable children) :
    TableShape M children := by
  refine ⟨h.1, fun j _ hj => ?_⟩
  have hlen : j < children.length := by rw [h.1]; exact hj
  simp only [pidAt, List.getElem?_eq_getElem hlen, Option.map_some', Option.some.injEq]
  exact h.2 _ (List.getElem_mem hlen)

theorem TableShape_count (M : Int) (children : ProcessList) (hM : 1 ≤ M)
    (h : TableShape M children) : (occupiedCount children : Int) ≤ M := by
  have := occupiedCount_le children M.toNat (fun j hj1 hj2 =>
    h.2 j (by omega) (by rw [← h.1]; exact hj2))
  omega

/-- C1: for every maximum `M` in [1,80], every table the accept loop holds at
the top of an iteration, started from the startup table and run under any
answers of the operating system, has at most `M` occupied slots and has every
slot with index >= `M` free; the same holds for the table right after the
reaper pass of the next iteration. -/
theorem occupied_le_maximum (listenFd : Int) (M : Int) (maximumTime : ℚ) (envs : List LoopEnv)
    (start children : ProcessList) (hM1 : 1 ≤ M) (hM2 : M ≤ 80) (hstart : StartupTable start)
    (hrun : (mainLoop listenFd M maximumTime envs start).1 = LoopOutcome.continues children) :
    ((occupiedCount children : Int) ≤ M ∧
        ∀ j : Nat, M ≤ (j : Int) → j < MAXIMUM_CONNECTIONS → pidAt children j = some (-1)) ∧
      ∀ env : PassEnv,
        (occupiedCount (checkUpOnTheKids env children M).1 : Int) ≤ M ∧
          ∀ j : Nat, M ≤ (j : Int) → j < MAXIMUM_CONNECTIONS →
            pidAt (checkUpOnTheKids env children M).1 j = some (-1) := by
  have _ := hM2
  have h := TableShape_mainLoop listenFd M maximumTime envs start children
    (StartupTable_shape M start hstart) hrun
  refine ⟨⟨TableShape_count M children hM1 h, h.2⟩, fun env => ?_⟩
  have hp := TableShape_pass env children M h
  exact ⟨TableShape_count M _ hM1 hp, hp.2⟩

/-- With `M = 1` and a session limit of 10 s: the first iteration registers
process 100 in slot 0, the second finds no free slot. -/
theorem occupied_le_maximum_witness :
    StartupTable startupExample ∧
      (mainLoop 3 1 10 [acceptEnv 1 100, acceptEnv 2 101] startupExample).1 =
        LoopOutcome.continues (startupExample.set 0 ⟨100, ProcessState.psRunning, 11⟩) ∧
      (occupiedCount (startupExample.set 0 ⟨100, ProcessState.psRunning, 11⟩) : Int) ≤ 1 :=
  have hstart : StartupTable startupExample := by
    simp [StartupTable, startupExample, MAXIMUM_CONNECTIONS]
  have hrun : (mainLoop 3 1 10 [acceptEnv 1 100, acceptEnv 2 101] startupExample).1 =
      LoopOutcome.continues (startupExample.set 0 ⟨100, ProcessState.psRunning, 11⟩) := by
    simp [mainLoop, loopIteration, acceptEnv, checkUpOnTheKids, findSlot, startupExample,
      checkUpStep, checkKid, findSlotLoop, List.range_succ, dadd_one_ten]
    norm_num
  ⟨hstart, hrun,
    (occupied_le_maximum 3 1 10 [acceptEnv 1 100, acceptEnv 2 101] startupExample
      (startupExample.set 0 ⟨100, ProcessState.psRunning, 11⟩) (by decide) (by decide)
      hstart hrun).1.1⟩

/-! ## The escalation ladder over successive passes -/

theorem checkKid_signals (t : ℚ) (w k : Int) (p : ProcessData) :
    signalsOf (checkKid t w k p).2 ++ signalsAhead (checkKid t w k p).1.state =
      signalsAhead p.state := by
  obtain ⟨pid, state, expiry⟩ := p
  cases state <;> simp only [checkKid] <;> split_ifs <;> simp [signalsOf, signalsAhead]

theorem checkKid_advances (t : ℚ) (w k : Int) (p : ProcessData) :
    Advances (some p.state) (some (checkKid t w k p).1.state) := by
  obtain ⟨pid, state, expiry⟩ := p
  cases state <;> simp only [checkKid] <;> split_ifs <;> simp [Advances]

theorem checkKid_expiryTime (t : ℚ) (w k : Int) (p : ProcessData) :
    (checkKid t w k p).1.expiryTime = p.expiryTime := by
  obtain ⟨pid, state, expiry⟩ := p
  cases state <;> simp only [checkKid] <;> split_ifs <;> simp

/-- What one pass does to a slot that exists: a record `next` one ladder step
on, with the same deadline, and signals accounted for by the ladder. -/
theorem pass_slot_step (env : PassEnv) (children : ProcessList) (M : Int) (j : Nat)
    (proc : ProcessData) (hget : children[j]? = some proc) :
    ∃ next, (checkUpOnTheKids env children M).1[j]? = some next ∧
      next.expiryTime = proc.expiryTime ∧
      Advances (some proc.state) (some next.state) ∧
      signalsTo j (checkUpOnTheKids env children M).2 ++ signalsAhead next.state =
        signalsAhead proc.state := by
  by_cases hj : j < M.toNat
  · refine ⟨(checkKid env.timeNow (env.waitpid j) (env.kill j) proc).1, ?_,
      checkKid_expiryTime _ _ _ _, checkKid_advances _ _ _ _, ?_⟩
    · simp [checkUpOnTheKids_get, hj, hget]
    · simp only [signalsTo, checkUpOnTheKids_slotLog, hj, if_true, hget, Option.map_some',
        Option.getD_some]
      exact checkKid_signals _ _ _ _
  · refine ⟨proc, ?_, rfl, ?_, ?_⟩
    · simp [checkUpOnTheKids_get, hj, hget]
    · simp [Advances]
    · simp [signalsTo, checkUpOnTheKids_slotLog, hj, signalsOf]

theorem sessionStates_head (M : Int) (j : Nat) (envs : List PassEnv) (children : ProcessList) :
    (sessionStates M j envs children).head? = some ((children[j]?).map ProcessData.state) := by
  cases envs <;> simp [sessionStates]

theorem sessionSignals_prefix (M : Int) (j : Nat) (envs : List PassEnv) (children : ProcessList)
    (proc : ProcessData) (hget : children[j]? = some proc) :
    sessionSignals M j envs children <+: signalsAhead proc.state := by
  induction envs generalizing children proc with
  | nil => simp [sessionSignals]
  | cons env rest ih =>
    obtain ⟨next, h1, _, _, h4⟩ := pass_slot_step env children M j proc hget
    unfold sessionSignals
    rw [← h4]
    exact (List.prefix_append_right_inj _).mpr (ih _ next h1)

theorem sessionStates_chain (M : Int) (j : Nat) (envs : List PassEnv) (children : ProcessList)
    (proc : ProcessData) (hget : children[j]? = some proc) :
    List.Chain' Advances (sessionStates M j envs children) := by
  induction envs generalizing children proc with
  | nil => simp [sessionStates]
  | cons env rest ih =>
    obtain ⟨next, h1, _, h3, _⟩ := pass_slot_step env children M j proc hget
    unfold sessionStates
    refine List.Chain'.cons' (ih _ next h1) ?_
    intro y hy
    rw [sessionStates_head, h1] at hy
    simp only [Option.map_some', Option.mem_def, Option.some.injEq] at hy
    rw [← hy, hget]
    exact h3

theorem sessionStates_length (M : Int) (j : Nat) (envs : List PassEnv) (children : ProcessList) :
    (sessionStates M j envs children).length = envs.length + 1 := by
  induction envs generalizing children with
  | nil => simp [sessionStates]
  | cons env rest ih => simp [sessionStates, ih]

/-- C4: for a slot that holds a session in state psRunning, over any sequence
of reaper passes (any times, any `waitpid` and `kill` answers), the successive
values of its state field form a chain in which each step either stays or goes
psRunning to psTerminated or psTerminated to psKilled, and the signals sent for
the slot over all the passes are a prefix of [SIGTERM, SIGKILL]. -/
theorem session_ladder (M : Int) (j : Nat) (envs : List PassEnv) (children : ProcessList)
    (proc : ProcessData) (hget : children[j]? = some proc)
    (hrun : proc.state = ProcessState.psRunning) :
    List.Chain' Advances (sessionStates M j envs children) ∧
      (sessionStates M j envs children).length = envs.length + 1 ∧
      sessionSignals M j envs children <+: [Signal.SIGTERM, Signal.SIGKILL] := by
  refine ⟨sessionStates_chain M j envs children proc hget, sessionStates_length M j envs children,
    ?_⟩
  have := sessionSignals_prefix M j envs children proc hget
  rw [hrun] at this
  exact this

theorem signalsTo_pass (env : PassEnv) (children : ProcessList) (M : Int) (j : Nat)
    (proc : ProcessData) (hj : (j : Int) < M) (hget : children[j]? = some proc) :
    signalsTo j (checkUpOnTheKids env children M).2 =
      signalsOf (checkKid env.timeNow (env.waitpid j) (env.kill j) proc).2 := by
  have hj2 : j < M.toNat := by omega
  simp [signalsTo, checkUpOnTheKids_slotLog, hj2, hget]

/-- Passes at times 10 and 12 over a session with deadline 10: SIGTERM, then
SIGKILL. -/
theorem session_ladder_witness :
    sessionSignals 20 0 [quietPass 10, quietPass 12] overdueExample =
        [Signal.SIGTERM, Signal.SIGKILL] ∧
      sessionSignals 20 0 [quietPass 10, quietPass 12] overdueExample <+:
        [Signal.SIGTERM, Signal.SIGKILL] :=
  ⟨by
    have h1 := checkUpOnTheKids_slot (quietPass 10) overdueExample 20 0
      ⟨41, ProcessState.psRunning, 10⟩ (by decide) rfl
    simp only [sessionSignals]
    rw [signalsTo_pass _ _ _ _ _ (by decide) h1,
      signalsTo_pass _ _ _ _ ⟨41, ProcessState.psRunning, 10⟩ (by decide) rfl]
    norm_num [quietPass, checkKid, signalsOf, dadd_ten_two],
    (session_ladder 20 0 [quietPass 10, quietPass 12] overdueExample
      ⟨41, ProcessState.psRunning, 10⟩ rfl rfl).2.2⟩

theorem checkKid_signal_time (t : ℚ) (w k : Int) (p : ProcessData) :
    (Signal.SIGTERM ∈ signalsOf (checkKid t w k p).2 → p.expiryTime ≤ t) ∧
      (Signal.SIGKILL ∈ signalsOf (checkKid t w k p).2 →
        p.expiryTime ≤ t ∧ dadd p.expiryTime 2 ≤ t) := by
  obtain ⟨pid, state, expiry⟩ := p
  cases state <;> simp only [checkKid] <;> split_ifs <;> simp_all [signalsOf]

theorem reaperPasses_signal_time (M : Int) (j : Nat) (envs : List PassEnv)
    (children : ProcessList) (proc : ProcessData) (hget : children[j]? = some proc)
    (i : Nat) (env : PassEnv) (r : ProcessList × List (Nat × Event))
    (henv : envs[i]? = some env) (hr : (reaperPasses M envs children)[i]? = some r) :
    (Signal.SIGTERM ∈ signalsTo j r.2 → proc.expiryTime ≤ env.timeNow) ∧
      (Signal.SIGKILL ∈ signalsTo j r.2 →
        proc.expiryTime ≤ env.timeNow ∧ dadd proc.expiryTime 2 ≤ env.timeNow) := by
  induction envs generalizing children proc i with
  | nil => simp at henv
  | cons e rest ih =>
    cases i with
    | zero =>
      simp only [List.getElem?_cons_zero, Option.some.injEq] at henv
      simp only [reaperPasses, List.getElem?_cons_zero, Option.some.injEq] at hr
      subst henv
      subst hr
      by_cases hj : j < M.toNat
      · simp only [signalsTo, checkUpOnTheKids_slotLog, hj, if_true, hget, Option.map_some',
          Option.getD_some]
        exact checkKid_signal_time _ _ _ _
      · simp [signalsTo, checkUpOnTheKids_slotLog, hj, signalsOf]
    | succ i =>
      simp only [List.getElem?_cons_succ] at henv
      simp only [reaperPasses, List.getElem?_cons_succ] at hr
      obtain ⟨next, h1, h2, _, _⟩ := pass_slot_step e children M j proc hget
      have := ih _ next h1 i henv hr
      rw [h2] at this
      exact this

theorem overdue_first_pass :
    signalsTo 0 (checkUpOnTheKids (quietPass 15) overdueExample 20).2 = [Signal.SIGTERM] := by
  rw [signalsTo_pass _ _ _ _ ⟨41, ProcessState.psRunning, 10⟩ (by decide) rfl]
  norm_num [quietPass, checkKid, signalsOf, dadd_ten_two]

theorem overdue_second_pass :
    signalsTo 0 (checkUpOnTheKids (quietPass 16)
      (checkUpOnTheKids (quietPass 15) overdueExample 20).1 20).2 = [Signal.SIGKILL] := by
  have h1 := checkUpOnTheKids_slot (quietPass 15) overdueExample 20 0
    ⟨41, ProcessState.psRunning, 10⟩ (by decide) rfl
  rw [signalsTo_pass _ _ _ _ _ (by decide) h1]
  norm_num [quietPass, checkKid, signalsOf, dadd_ten_two]

/-- C5 as stated fails: a session with deadline 10 whose first pass after the
deadline comes at time 15 gets SIGTERM in that pass and SIGKILL in the pass at
time 16, one second later. -/
theorem kill_within_two_seconds_of_term :
    signalsTo 0 (checkUpOnTheKids (quietPass 15) overdueExample 20).2 = [Signal.SIGTERM] ∧
      signalsTo 0 (checkUpOnTheKids (quietPass 16)
        (checkUpOnTheKids (quietPass 15) overdueExample 20).1 20).2 = [Signal.SIGKILL] ∧
      (quietPass 15).timeNow ≤ (quietPass 16).timeNow ∧
      ¬ ((quietPass 16).timeNow ≥ (quietPass 15).timeNow + 2) := by
  exact ⟨overdue_first_pass, overdue_second_pass, by norm_num [quietPass],
    by norm_num [quietPass]⟩

/-- C5, amended: over any sequence of reaper passes on a slot whose record has
deadline `proc.expiryTime`, if the pass at time `t1` sends SIGTERM for the slot
and the pass at time `t2` sends SIGKILL for it, then `t1 >= deadline`,
`t2 >= deadline` and `t2 >= deadline + 2.0`, the sum being the double sum the
code computes: the window of 2 seconds is counted from the deadline. -/
theorem kill_not_before_deadline_plus_grace (M : Int) (j : Nat) (envs : List PassEnv)
    (children : ProcessList) (proc : ProcessData) (hget : children[j]? = some proc)
    (i1 i2 : Nat) (env1 env2 : PassEnv) (r1 r2 : ProcessList × List (Nat × Event))
    (henv1 : envs[i1]? = some env1) (hr1 : (reaperPasses M envs children)[i1]? = some r1)
    (henv2 : envs[i2]? = some env2) (hr2 : (reaperPasses M envs children)[i2]? = some r2)
    (hterm : Signal.SIGTERM ∈ signalsTo j r1.2) (hkill : Signal.SIGKILL ∈ signalsTo j r2.2) :
    env1.timeNow ≥ proc.expiryTime ∧ env2.timeNow ≥ proc.expiryTime ∧
      env2.timeNow ≥ dadd proc.expiryTime 2 :=
  ⟨(reaperPasses_signal_time M j envs children proc hget i1 env1 r1 henv1 hr1).1 hterm,
    (reaperPasses_signal_time M j envs children proc hget i2 env2 r2 henv2 hr2).2 hkill⟩

/-- The passes at times 15 and 16 over the session with deadline 10. -/
theorem kill_not_before_deadline_plus_grace_witness :
    (quietPass 15).timeNow ≥ (10 : ℚ) ∧ (quietPass 16).timeNow ≥ (10 : ℚ) ∧
      (quietPass 16).timeNow ≥ dadd 10 2 :=
  kill_not_before_deadline_plus_grace 20 0 [quietPass 15, quietPass 16] overdueExample
    ⟨41, ProcessState.psRunning, 10⟩ rfl 0 1 (quietPass 15) (quietPass 16)
    (checkUpOnTheKids (quietPass 15) overdueExample 20)
    (checkUpOnTheKids (quietPass 16) (checkUpOnTheKids (quietPass 15) overdueExample 20).1 20)
    rfl rfl rfl rfl
    (by rw [overdue_first_pass]; simp)
    (by rw [overdue_second_pass]; simp)

/-! ## Admission control -/

theorem checkKid_events (t : ℚ) (w k : Int) (p : ProcessData) :
    ∀ e ∈ (checkKid t w k p).2, reaperEvent e = true := by
  obtain ⟨pid, state, expiry⟩ := p
  cases state <;> simp only [checkKid] <;> split_ifs <;> simp [reaperEvent]

theorem checkUpStep_events (env : PassEnv) (acc : ProcessList × List (Nat × Event)) (j : Nat)
    (h : ∀ e ∈ acc.2, reaperEvent e.2 = true) :
    ∀ e ∈ (checkUpStep env acc j).2, reaperEvent e.2 = true := by
  unfold checkUpStep
  cases hc : acc.1[j]? with
  | none => simpa using h
  | some proc =>
    intro e he
    simp only [List.mem_append, List.mem_map] at he
    rcases he with he | ⟨x, hx, rfl⟩
    · exact h e he
    · exact checkKid_events _ _ _ _ x hx

theorem checkUpFold_events (env : PassEnv) (n : Nat) (acc : ProcessList × List (Nat × Event))
    (h : ∀ e ∈ acc.2, reaperEvent e.2 = true) :
    ∀ e ∈ ((List.range n).foldl (checkUpStep env) acc).2, reaperEvent e.2 = true := by
  induction n with
  | zero => simpa using h
  | succ n ih =>
    rw [List.range_succ, List.foldl_append, List.foldl_cons, List.foldl_nil]
    exact checkUpStep_events env _ n ih

theorem checkUpOnTheKids_events (env : PassEnv) (children : ProcessList) (M : Int) :
    ∀ e ∈ (checkUpOnTheKids env children M).2.map Prod.snd, reaperEvent e = true := by
  intro e he
  simp only [List.mem_map] at he
  obtain ⟨x, hx, rfl⟩ := he
  exact checkUpFold_events env M.toNat (children, []) (by simp) x hx

theorem findSlot_neg_iff (children : ProcessList) (M : Int) :
    findSlot children M < 0 ↔ ∀ j : Nat, (j : Int) < M → pidAt children j ≠ some (-1) := by
  obtain ⟨h1, _, h3⟩ := findSlot_spec children M
  rw [← h1]
  rcases h3 with h | ⟨k, hk, _⟩
  · simp [h]
  · rw [hk]
    constructor <;> intro h <;> omega

/-- C6: in an iteration of the accept loop, `accept` is called if and only if
the table left by that iteration's reaper pass has a free slot below `M`. When
it has none, the iteration issues no `accept` and no `fork`: after the pass it
only calls `delay` and goes back to the top of the loop with that table. When
the pass frees a slot (a slot in use whose `waitpid` returns its pid), `accept`
is called in the same iteration. -/
theorem accept_iff_free_slot (listenFd : Int) (M : Int) (maximumTime : ℚ) (env : LoopEnv)
    (children : ProcessList) :
    (Event.accept ∈ (loopIteration listenFd M maximumTime env children).2 ↔
        ∃ j : Nat, (j : Int) < M ∧
          pidAt (checkUpOnTheKids env.pass children M).1 j = some (-1)) ∧
      ((∀ j : Nat, (j : Int) < M →
          pidAt (checkUpOnTheKids env.pass children M).1 j ≠ some (-1)) →
        loopIteration listenFd M maximumTime env children =
            (LoopOutcome.continues (checkUpOnTheKids env.pass children M).1,
              (checkUpOnTheKids env.pass children M).2.map Prod.snd ++ [Event.delay]) ∧
          Event.accept ∉ (loopIteration listenFd M maximumTime env children).2 ∧
          Event.fork ∉ (loopIteration listenFd M maximumTime env children).2) ∧
      (∀ (j : Nat) (proc : ProcessData), (j : Int) < M → children[j]? = some proc →
        0 ≤ proc.pid → env.pass.waitpid j = proc.pid →
        Event.accept ∈ (loopIteration listenFd M maximumTime env children).2) := by
  have hlog := checkUpOnTheKids_events env.pass children M
  have hacc : Event.accept ∉ (checkUpOnTheKids env.pass children M).2.map Prod.snd :=
    fun h => by simpa [reaperEvent] using hlog _ h
  have hfork : Event.fork ∉ (checkUpOnTheKids env.pass children M).2.map Prod.snd :=
    fun h => by simpa [reaperEvent] using hlog _ h
  have hneg := findSlot_neg_iff (checkUpOnTheKids env.pass children M).1 M
  have hiff : Event.accept ∈ (loopIteration listenFd M maximumTime env children).2 ↔
      ∃ j : Nat, (j : Int) < M ∧
        pidAt (checkUpOnTheKids env.pass children M).1 j = some (-1) := by
    by_cases hs : findSlot (checkUpOnTheKids env.pass children M).1 M < 0
    · have hno := hneg.mp hs
      constructor
      · intro h
        simp only [loopIteration, hs, if_true, List.mem_append, List.mem_singleton] at h
        rcases h with h | h
        · exact absurd h hacc
        · cases h
      · rintro ⟨j, hj, hfree⟩
        exact absurd hfree (hno j hj)
    · have hex : ∃ j : Nat, (j : Int) < M ∧
          pidAt (checkUpOnTheKids env.pass children M).1 j = some (-1) := by
        by_contra hcon
        exact hs (hneg.mpr (fun j hj hfree => hcon ⟨j, hj, hfree⟩))
      refine ⟨fun _ => hex, fun _ => ?_⟩
      simp only [loopIteration, hs, if_false]
      split_ifs <;> simp
  refine ⟨hiff, ?_, ?_⟩
  · intro hno
    have hs := hneg.mpr hno
    refine ⟨by simp [loopIteration, hs], ?_, ?_⟩
    · intro h
      obtain ⟨j, hj, hfree⟩ := hiff.mp h
      exact hno j hj hfree
    · intro h
      simp only [loopIteration, hs, if_true, List.mem_append, List.mem_singleton] at h
      rcases h with h | h
      · exact absurd h hfork
      · cases h
  · intro j proc hj hget hocc hw
    refine hiff.mpr ⟨j, hj, ?_⟩
    have hne : proc.pid ≠ -1 := by omega
    rw [pidAt, checkUpOnTheKids_slot env.pass children M j proc hj hget]
    simp [checkKid, hocc, hw, hne]

/-! ## Registration of a new session -/

theorem occupiedCount_set (l : ProcessList) (k : Nat) (a : ProcessData)
    (hfree : pidAt l k = some (-1)) (ha : a.pid ≠ -1) :
    occupiedCount (l.set k a) = occupiedCount l + 1 := by
  induction l generalizing k with
  | nil => simp [pidAt] at hfree
  | cons x xs ih =>
    cases k with
    | zero =>
      simp only [pidAt, List.getElem?_cons_zero, Option.map_some', Option.some.injEq] at hfree
      simp [occupiedCount, List.countP_cons, hfree, ha]
    | succ k =>
      have hfree2 : pidAt xs k = some (-1) := by simpa [pidAt] using hfree
      have := ih k hfree2
      simp only [occupiedCount, List.set_cons_succ, List.countP_cons] at this ⊢
      omega

theorem startup_pass_findSlot (env : PassEnv) :
    findSlot (checkUpOnTheKids env startupExample 20).1 20 = ((0 : Nat) : Int) := by
  have h := (findSlot_spec (checkUpOnTheKids env startupExample 20).1 20).2.1 0
  have h0 : (checkUpOnTheKids env startupExample 20).1[0]? =
      some (checkKid env.timeNow (env.waitpid 0) (env.kill 0)
        ⟨-1, ProcessState.psRunning, 0⟩).1 :=
    checkUpOnTheKids_slot _ startupExample 20 0 ⟨-1, ProcessState.psRunning, 0⟩ (by decide) rfl
  exact h.mpr ⟨by decide, by simp [pidAt, h0, checkKid], fun k hk => by omega⟩

theorem registration_outcome (listenFd : Int) (M : Int) (maximumTime : ℚ) (env : LoopEnv)
    (children : ProcessList) (k : Nat)
    (hslot : findSlot (checkUpOnTheKids env.pass children M).1 M = (k : Int))
    (haccept : 0 ≤ env.accept) (hfork : 0 < env.fork) :
    (loopIteration listenFd M maximumTime env children).1 =
      LoopOutcome.continues ((checkUpOnTheKids env.pass children M).1.set k
        ⟨env.fork, ProcessState.psRunning, dadd env.timeNow maximumTime⟩) := by
  have h1 : ¬ ((k : Int) < 0) := by omega
  have h2 : ¬ (env.accept < 0) := by omega
  have h3 : ¬ (env.fork < 0) := by omega
  simp [loopIteration, hslot, h1, h2, h3, hfork]

/-- C8 as stated fails on the deadline: from the startup table, with the clock
reading 0.7 (as a double) and a session limit of 10 s, the parent registers
process 100 in slot 0 with the deadline 10.7 (the double 0x1.5666666666666p+3),
which is not the exact sum of the clock reading and the limit. -/
theorem deadline_is_rounded_sum :
    (loopIteration 3 20 10 pointSevenEnv startupExample).1 =
        LoopOutcome.continues ((checkUpOnTheKids pointSevenEnv.pass startupExample 20).1.set 0
          ⟨100, ProcessState.psRunning, 3011782250804019 / 281474976710656⟩) ∧
      (3011782250804019 / 281474976710656 : ℚ) ≠ pointSevenEnv.timeNow + 10 := by
  constructor
  · rw [registration_outcome 3 20 10 pointSevenEnv startupExample 0
      (startup_pass_findSlot _) (by decide) (by decide)]
    have h : dadd pointSevenEnv.timeNow 10 = 3011782250804019 / 281474976710656 :=
      dadd_point_seven
    rw [h]
    rfl
  · norm_num [pointSevenEnv]

/-- C8, amended: when the reaper pass of an iteration leaves a table in which
`findSlot` returns the index `k`, and `accept` and `fork` both succeed in the
parent, the iteration ends with a table in which slot `k`, free before, holds
the child's pid, state psRunning and as deadline the double sum
`getTimeSinceStart () + maximumTime` the code computes (the exact sum rounded to
the nearest double); every other slot is as the pass left it, so every record
of a live session is kept and the number of occupied slots grows by exactly
one. -/
theorem parent_registers_one_slot (listenFd : Int) (M : Int) (maximumTime : ℚ) (env : LoopEnv)
    (children : ProcessList) (k : Nat)
    (hslot : findSlot (checkUpOnTheKids env.pass children M).1 M = (k : Int))
    (haccept : 0 ≤ env.accept) (hfork : 0 < env.fork) :
    ∃ next, (loopIteration listenFd M maximumTime env children).1 = LoopOutcome.continues next ∧
      pidAt (checkUpOnTheKids env.pass children M).1 k = some (-1) ∧
      next[k]? = some ⟨env.fork, ProcessState.psRunning, dadd env.timeNow maximumTime⟩ ∧
      IsDouble (dadd env.timeNow maximumTime) ∧
      (∀ i : Nat, i ≠ k → next[i]? = (checkUpOnTheKids env.pass children M).1[i]?) ∧
      next.length = (checkUpOnTheKids env.pass children M).1.length ∧
      (∀ (i : Nat) (p : ProcessData), (checkUpOnTheKids env.pass children M).1[i]? = some p →
        p.pid ≠ -1 → next[i]? = some p) ∧
      occupiedCount next = occupiedCount (checkUpOnTheKids env.pass children M).1 + 1 := by
  obtain ⟨_, h2, _⟩ := findSlot_spec (checkUpOnTheKids env.pass children M).1 M
  obtain ⟨_, hfree, _⟩ := (h2 k).mp hslot
  have hklen : k < (checkUpOnTheKids env.pass children M).1.length := by
    simp only [pidAt, Option.map_eq_some'] at hfree
    obtain ⟨a, ha, _⟩ := hfree
    exact (List.getElem?_eq_some_iff.mp ha).1
  have hne : env.fork ≠ -1 := by omega
  refine ⟨(checkUpOnTheKids env.pass children M).1.set k
    ⟨env.fork, ProcessState.psRunning, dadd env.timeNow maximumTime⟩,
    registration_outcome listenFd M maximumTime env children k hslot haccept hfork, hfree, ?_,
    isDouble_dadd _ _, ?_, ?_, ?_, ?_⟩
  · simp [List.getElem?_set, hklen]
  · intro i hi
    exact List.getElem?_set_ne (fun h => hi h.symm)
  · simp
  · intro i p hp hpid
    have hik : k ≠ i := by
      intro h
      subst h
      simp only [pidAt, hp, Option.map_some', Option.some.injEq] at hfree
      exact hpid hfree
    rw [List.getElem?_set_ne hik]
    exact hp
  · exact occupiedCount_set _ k _ hfree hne

/-- From the startup table, with `accept` returning 5 and `fork` returning 100
at time 1 and a session limit of 10 s: slot 0 gets process 100, running. -/
theorem parent_registers_one_slot_witness :
    ∃ next, (loopIteration 3 20 10 (acceptEnv 1 100) startupExample).1 =
        LoopOutcome.continues next ∧
      pidAt (checkUpOnTheKids (acceptEnv 1 100).pass startupExample 20).1 0 = some (-1) ∧
      next[0]? = some ⟨(acceptEnv 1 100).fork, ProcessState.psRunning,
        dadd (acceptEnv 1 100).timeNow 10⟩ ∧
      IsDouble (dadd (acceptEnv 1 100).timeNow 10) ∧
      (∀ i : Nat, i ≠ 0 →
        next[i]? = (checkUpOnTheKids (acceptEnv 1 100).pass startupExample 20).1[i]?) ∧
      next.length = (checkUpOnTheKids (acceptEnv 1 100).pass startupExample 20).1.length ∧
      (∀ (i : Nat) (p : ProcessData),
        (checkUpOnTheKids (acceptEnv 1 100).pass startupExample 20).1[i]? = some p →
        p.pid ≠ -1 → next[i]? = some p) ∧
      occupiedCount next =
        occupiedCount (checkUpOnTheKids (acceptEnv 1 100).pass startupExample 20).1 + 1 :=
  parent_registers_one_slot 3 20 10 (acceptEnv 1 100) startupExample 0
    (startup_pass_findSlot _) (by decide) (by decide)

/-! ## One slot per process -/

theorem checkKid_pid (t : ℚ) (w k : Int) (p : ProcessData) :
    (checkKid t w k p).1.pid = p.pid ∨ (checkKid t w k p).1.pid = -1 := by
  obtain ⟨pid, state, expiry⟩ := p
  cases state <;> simp only [checkKid] <;> split_ifs <;> simp

theorem pass_pid (env : PassEnv) (children : ProcessList) (M : Int) (i : Nat)
    (next : ProcessData) (h : (checkUpOnTheKids env children M).1[i]? = some next) :
    ∃ p, children[i]? = some p ∧ (next.pid = p.pid ∨ next.pid = -1) := by
  rw [checkUpOnTheKids_get] at h
  split at h
  · simp only [Option.map_eq_some'] at h
    obtain ⟨p, hp, rfl⟩ := h
    exact ⟨p, hp, checkKid_pid _ _ _ _⟩
  · exact ⟨next, h, Or.inl rfl⟩

theorem pass_mem_pid (env : PassEnv) (children : ProcessList) (M : Int) (next : ProcessData)
    (h : next ∈ (checkUpOnTheKids env children M).1) :
    ∃ p ∈ children, next.pid = p.pid ∨ next.pid = -1 := by
  obtain ⟨i, hi, rfl⟩ := List.getElem_of_mem h
  obtain ⟨p, hp, hpid⟩ := pass_pid env children M i _ (List.getElem?_eq_getElem hi)
  exact ⟨p, List.getElem?_mem hp, hpid⟩

theorem DistinctPids_pass (env : PassEnv) (children : ProcessList) (M : Int)
    (h : DistinctPids children) : DistinctPids (checkUpOnTheKids env children M).1 := by
  intro i j p q hp hq hne heq
  obtain ⟨p0, hp0, hpp⟩ := pass_pid env children M i p hp
  obtain ⟨q0, hq0, hqq⟩ := pass_pid env children M j q hq
  have h1 : p.pid = p0.pid := by
    rcases hpp with h | h
    · exact h
    · exact absurd h hne
  have h2 : q.pid = q0.pid := by
    rcases hqq with h | h
    · exact h
    · exact absurd (heq.trans h) hne
  exact h i j p0 q0 hp0 hq0 (h1 ▸ hne) (by rw [← h1, ← h2]; exact heq)

theorem DistinctPids_set (children : ProcessList) (k : Nat) (a : ProcessData)
    (hfresh : ∀ p ∈ children, p.pid ≠ a.pid) (h : DistinctPids children) :
    DistinctPids (children.set k a) := by
  intro i j p q hp hq hne heq
  by_cases hik : k = i <;> by_cases hjk : k = j
  · omega
  · subst hik
    rw [List.getElem?_set_ne hjk] at hq
    rw [List.getElem?_set] at hp
    simp only [if_true] at hp
    split at hp
    · simp only [Option.some.injEq] at hp
      subst hp
      exact absurd heq.symm (hfresh q (List.getElem?_mem hq))
    · cases hp
  · subst hjk
    rw [List.getElem?_set_ne hik] at hp
    rw [List.getElem?_set] at hq
    simp only [if_true] at hq
    split at hq
    · simp only [Option.some.injEq] at hq
      subst hq
      exact absurd heq (hfresh p (List.getElem?_mem hp))
    · cases hq
  · rw [List.getElem?_set_ne hik] at hp
    rw [List.getElem?_set_ne hjk] at hq
    exact h i j p q hp hq hne heq

theorem DistinctPids_iteration (listenFd : Int) (M : Int) (maximumTime : ℚ) (env : LoopEnv)
    (children next : ProcessList) (h : DistinctPids children) (hfresh : ForkFresh M env children)
    (hnext : (loopIteration listenFd M maximumTime env children).1 = LoopOutcome.continues next) :
    DistinctPids next := by
  have hp := DistinctPids_pass env.pass children M h
  unfold loopIteration at hnext
  simp only at hnext
  split at hnext
  · simp only [LoopOutcome.continues.injEq] at hnext
    exact hnext ▸ hp
  · rename_i hslot
    split at hnext
    · simp only [LoopOutcome.continues.injEq] at hnext
      exact hnext ▸ hp
    · rename_i hacc
      split at hnext
      · simp only [LoopOutcome.continues.injEq] at hnext
        exact hnext ▸ hp
      · split at hnext
        · rename_i hpos
          simp only [LoopOutcome.continues.injEq] at hnext
          rw [← hnext]
          exact DistinctPids_set _ _ _ (hfresh hslot (by omega) hpos) hp
        · simp at hnext

theorem DistinctPids_mainLoop (listenFd : Int) (M : Int) (maximumTime : ℚ) (envs : List LoopEnv)
    (start children : ProcessList) (h : DistinctPids start)
    (hfresh : ForksFresh listenFd M maximumTime envs start)
    (hrun : (mainLoop listenFd M maximumTime envs start).1 = LoopOutcome.continues children) :
    DistinctPids children := by
  induction envs generalizing start with
  | nil =>
    simp only [mainLoop, LoopOutcome.continues.injEq] at hrun
    exact hrun ▸ h
  | cons env rest ih =>
    unfold mainLoop at hrun
    unfold ForksFresh at hfresh
    split at hrun
    · rename_i next log heq
      have hn : (loopIteration listenFd M maximumTime env start).1 = LoopOutcome.continues next := by
        rw [heq]
      rw [hn] at hfresh
      exact ih next (DistinctPids_iteration listenFd M maximumTime env start next h hfresh.1 hn)
        hfresh.2 hrun
    · simp at hrun

/-- C9: every table the accept loop holds at the top of an iteration, started
from the startup table and run under any answers of the operating system in
which each successful `fork` returns a pid not recorded in the table at that
moment, has no pid recorded in two slots. -/
theorem distinct_pids (listenFd : Int) (M : Int) (maximumTime : ℚ) (envs : List LoopEnv)
    (start children : ProcessList) (hstart : StartupTable start)
    (hfresh : ForksFresh listenFd M maximumTime envs start)
    (hrun : (mainLoop listenFd M maximumTime envs start).1 = LoopOutcome.continues children) :
    DistinctPids children := by
  refine DistinctPids_mainLoop listenFd M maximumTime envs start children ?_ hfresh hrun
  intro i j p q hp _ hne _
  exact absurd (hstart.2 p (List.getElem?_mem hp)) hne

theorem startupExample_startup : StartupTable startupExample := by
  simp [StartupTable, startupExample, MAXIMUM_CONNECTIONS]

theorem two_sessions_first :
    loopIteration 3 2 10 (acceptEnv 1 100) startupExample =
      (LoopOutcome.continues (startupExample.set 0 ⟨100, ProcessState.psRunning, 11⟩),
        [Event.accept, Event.fork, Event.close 5]) := by
  simp [loopIteration, acceptEnv, checkUpOnTheKids, findSlot, startupExample,
    checkUpStep, checkKid, findSlotLoop, List.range_succ, dadd_one_ten]

theorem two_sessions_second :
    loopIteration 3 2 10 (acceptEnv 2 101)
        (startupExample.set 0 ⟨100, ProcessState.psRunning, 11⟩) =
      (LoopOutcome.continues ((startupExample.set 0 ⟨100, ProcessState.psRunning, 11⟩).set 1
          ⟨101, ProcessState.psRunning, 12⟩),
        [Event.waitpid 100, Event.accept, Event.fork, Event.close 5]) := by
  simp [loopIteration, acceptEnv, checkUpOnTheKids, findSlot, startupExample,
    checkUpStep, checkKid, findSlotLoop, List.range_succ, dadd_two_ten]
  norm_num

theorem two_sessions_run :
    (mainLoop 3 2 10 [acceptEnv 1 100, acceptEnv 2 101] startupExample).1 =
      LoopOutcome.continues ((startupExample.set 0 ⟨100, ProcessState.psRunning, 11⟩).set 1
        ⟨101, ProcessState.psRunning, 12⟩) := by
  simp only [mainLoop, two_sessions_first, two_sessions_second]

theorem two_sessions_fresh :
    ForksFresh 3 2 10 [acceptEnv 1 100, acceptEnv 2 101] startupExample := by
  simp only [ForksFresh, two_sessions_first, two_sessions_second, and_true]
  constructor
  · intro _ _ _ p hp
    obtain ⟨q, hq, hpq⟩ := pass_mem_pid _ _ _ p hp
    have hq1 : q.pid = -1 := startupExample_startup.2 q hq
    have hf : (acceptEnv 1 100).fork = 100 := rfl
    rw [hf]
    rcases hpq with h | h <;> omega
  · intro _ _ _ p hp
    obtain ⟨q, hq, hpq⟩ := pass_mem_pid _ _ _ p hp
    have hq1 : q.pid = 100 ∨ q.pid = -1 := by
      rcases List.mem_or_eq_of_mem_set hq with h | h
      · exact Or.inr (startupExample_startup.2 q h)
      · exact Or.inl (by rw [h])
    have hf : (acceptEnv 2 101).fork = 101 := rfl
    rw [hf]
    rcases hpq with h | h <;> rcases hq1 with h1 | h1 <;> omega

/-- With `M = 2`: two iterations register processes 100 and 101 in slots 0
and 1. -/
theorem distinct_pids_witness :
    (mainLoop 3 2 10 [acceptEnv 1 100, acceptEnv 2 101] startupExample).1 =
        LoopOutcome.continues ((startupExample.set 0 ⟨100, ProcessState.psRunning, 11⟩).set 1
          ⟨101, ProcessState.psRunning, 12⟩) ∧
      DistinctPids ((startupExample.set 0 ⟨100, ProcessState.psRunning, 11⟩).set 1
        ⟨101, ProcessState.psRunning, 12⟩) :=
  ⟨two_sessions_run,
    distinct_pids 3 2 10 [acceptEnv 1 100, acceptEnv 2 101] startupExample _
      startupExample_startup two_sessions_fresh two_sessions_run⟩

/-! ## The descriptor topology of a session -/

theorem fileAt_setFd (t : FdTable) (fd fd2 : Nat) (f : Option File) :
    fileAt (setFd t fd f) fd2 = if fd2 = fd then f else fileAt t fd2 := by
  unfold fileAt setFd
  by_cases hlt : fd < t.length
  · simp only [hlt, if_true, List.getElem?_set]
    by_cases h : fd = fd2
    · subst h; simp [hlt]
    · have h2 : ¬ fd2 = fd := fun e => h e.symm
      simp [h, h2]
  · simp only [hlt, if_false]
    by_cases h : fd2 = fd
    · subst h
      have hlen : (t ++ List.replicate (fd2 - t.length) none).length = fd2 := by
        simp only [List.length_append, List.length_replicate]
        omega
      have : (t ++ List.replicate (fd2 - t.length) none ++ [f])[fd2]? = some f := by
        rw [List.getElem?_append_right (by rw [hlen]), hlen, Nat.sub_self]
        rfl
      rw [this, if_pos rfl]
      rfl
    · simp only [h, if_false]
      by_cases h1 : fd2 < t.length
      · rw [List.append_assoc, List.getElem?_append_left h1]
      · have hnone : t[fd2]? = none := List.getElem?_eq_none (by omega)
        rw [hnone]
        by_cases h2 : fd2 < fd
        · rw [List.getElem?_append_left (by simp; omega),
            List.getElem?_append_right (by omega)]
          simp [List.getElem?_replicate]
        · rw [List.getElem?_eq_none (by simp; omega)]

theorem fileAt_close (t : FdTable) (fd fd2 : Nat) :
    fileAt (close t fd) fd2 = if fd2 = fd then none else fileAt t fd2 := by
  unfold fileAt close
  by_cases hlt : fd < t.length
  · simp only [hlt, if_true, List.getElem?_set]
    by_cases h : fd = fd2
    · subst h; simp [hlt]
    · have h2 : ¬ fd2 = fd := fun e => h e.symm
      simp [h, h2]
  · simp only [hlt, if_false]
    by_cases h : fd2 = fd
    · subst h
      simp [List.getElem?_eq_none (Nat.le_of_not_lt hlt)]
    · simp [h]

theorem fileAt_lowestFree (t : FdTable) : fileAt t (lowestFree t) = none := by
  unfold fileAt lowestFree
  induction t with
  | nil => simp
  | cons x xs ih =>
    rw [List.findIdx_cons]
    cases x with
    | none => simp
    | some f => simpa using ih

theorem fileAt_closeLoop (t : FdTable) (n tfd fd : Nat) :
    fileAt (closeLoop t n tfd) fd =
      if tfd ≤ fd ∧ fd < tfd + n then none else fileAt t fd := by
  induction n generalizing t tfd with
  | zero =>
    rw [closeLoop, if_neg (by omega)]
  | succ n ih =>
    rw [closeLoop, ih, fileAt_close]
    by_cases h1 : fd = tfd
    · subst h1
      have : fd ≤ fd ∧ fd < fd + (n + 1) := by omega
      simp [this]
    · by_cases h2 : tfd + 1 ≤ fd ∧ fd < tfd + 1 + n
      · have : tfd ≤ fd ∧ fd < tfd + (n + 1) := by omega
        simp [h2, this]
      · have : ¬ (tfd ≤ fd ∧ fd < tfd + (n + 1)) := by omega
        simp [h1, h2, this]

theorem dup2_open (t : FdTable) (oldfd newfd : Nat) (f : File) (h : fileAt t oldfd = some f) :
    dup2 t (oldfd : Int) newfd = some (setFd t newfd (some f)) := by
  have h0 : ¬ ((oldfd : Int) < 0) := by omega
  simp [dup2, h0, h]

/-- The descriptors `pipe` hands out were closed, differ from each other, and
refer to the two ends of the new pipe; every other descriptor is as before. -/
theorem pipe_spec (t : FdTable) (k : Nat) :
    fileAt t (pipe t k).2.1 = none ∧ fileAt t (pipe t k).2.2 = none ∧
      (pipe t k).2.1 ≠ (pipe t k).2.2 ∧
      ∀ fd, fileAt (pipe t k).1 fd =
        if fd = (pipe t k).2.2 then some (File.pipeWrite k)
        else if fd = (pipe t k).2.1 then some (File.pipeRead k)
        else fileAt t fd := by
  have h1 := fileAt_lowestFree t
  have h2 := fileAt_lowestFree (setFd t (lowestFree t) (some (File.pipeRead k)))
  rw [fileAt_setFd] at h2
  have hne : lowestFree (setFd t (lowestFree t) (some (File.pipeRead k))) ≠ lowestFree t := by
    intro h
    rw [if_pos h] at h2
    cases h2
  rw [if_neg hne] at h2
  refine ⟨h1, h2, fun h => hne h.symm, fun fd => ?_⟩
  simp only [pipe, fileAt_setFd]

/-- When nothing fails, `createPreProcess` forks one stage whose stdin is the
caller's old stdin and whose stdout is the write end of a new pipe, and leaves
the caller with the read end of that pipe as stdin and its stdout as it was. -/
theorem createPreProcess_ok (sys : SysAnswers) (argv0 : Program) (w : Worker) (f0 f1 : File)
    (hpipe : sys.pipeFails argv0 = false) (hfork : sys.forkFails argv0 = false)
    (hexec : sys.execFails argv0 = false)
    (h0 : fileAt w.fds 0 = some f0) (h1 : fileAt w.fds 1 = some f1) :
    ∃ cfds pfds, createPreProcess sys argv0 w =
        Except.ok ⟨pfds, w.pipes + 1, w.stages ++ [Ending.exec argv0 cfds]⟩ ∧
      fileAt pfds 0 = some (File.pipeRead w.pipes) ∧ fileAt pfds 1 = some f1 ∧
      fileAt cfds 0 = some f0 ∧ fileAt cfds 1 = some (File.pipeWrite w.pipes) := by
  obtain ⟨hrd, hwr, hne, hall⟩ := pipe_spec w.fds w.pipes
  unfold createPreProcess
  simp only [hpipe, hfork, hexec, Bool.false_eq_true, if_false]
  generalize pipe w.fds w.pipes = fd_set at hrd hwr hne hall ⊢
  obtain ⟨t, rd, wr⟩ := fd_set
  simp only at hrd hwr hne hall ⊢
  have hrd0 : rd ≠ 0 := fun h => by rw [h, h0] at hrd; cases hrd
  have hrd1 : rd ≠ 1 := fun h => by rw [h, h1] at hrd; cases hrd
  have hwr0 : wr ≠ 0 := fun h => by rw [h, h0] at hwr; cases hwr
  have hwr1 : wr ≠ 1 := fun h => by rw [h, h1] at hwr; cases hwr
  have hc : fileAt (close t rd) wr = some (File.pipeWrite w.pipes) := by
    rw [fileAt_close, if_neg (fun h => hne h.symm), hall, if_pos rfl]
  have hp : fileAt (close t wr) rd = some (File.pipeRead w.pipes) := by
    rw [fileAt_close, if_neg hne, hall, if_neg hne, if_pos rfl]
  rw [dup2_open _ _ _ _ hc, dup2_open _ _ _ _ hp]
  refine ⟨_, _, rfl, ?_, ?_, ?_, ?_⟩
  · rw [fileAt_setFd, if_pos rfl]
  · rw [fileAt_setFd, if_neg (by decide), fileAt_close, if_neg (fun h => hwr1 h.symm), hall,
      if_neg (fun h => hwr1 h.symm), if_neg (fun h => hrd1 h.symm), h1]
  · rw [fileAt_setFd, if_neg (by decide), fileAt_close, if_neg (fun h => hrd0 h.symm), hall,
      if_neg (fun h => hwr0 h.symm), if_neg (fun h => hrd0 h.symm), h0]
  · rw [fileAt_setFd, if_pos rfl]

/-- When nothing fails, `createPostProcess` forks one stage whose stdin is the
read end of a new pipe and whose stdout is the caller's old stdout, and leaves
the caller with the write end of that pipe as stdout and its stdin as it was. -/
theorem createPostProcess_ok (sys : SysAnswers) (argv0 : Program) (w : Worker) (f0 f1 : File)
    (hpipe : sys.pipeFails argv0 = false) (hfork : sys.forkFails argv0 = false)
    (hexec : sys.execFails argv0 = false)
    (h0 : fileAt w.fds 0 = some f0) (h1 : fileAt w.fds 1 = some f1) :
    ∃ cfds pfds, createPostProcess sys argv0 w =
        Except.ok ⟨pfds, w.pipes + 1, w.stages ++ [Ending.exec argv0 cfds]⟩ ∧
      fileAt pfds 0 = some f0 ∧ fileAt pfds 1 = some (File.pipeWrite w.pipes) ∧
      fileAt cfds 0 = some (File.pipeRead w.pipes) ∧ fileAt cfds 1 = some f1 := by
  obtain ⟨hrd, hwr, hne, hall⟩ := pipe_spec w.fds w.pipes
  unfold createPostProcess
  simp only [hpipe, hfork, hexec, Bool.false_eq_true, if_false]
  generalize pipe w.fds w.pipes = fd_set at hrd hwr hne hall ⊢
  obtain ⟨t, rd, wr⟩ := fd_set
  simp only at hrd hwr hne hall ⊢
  have hrd0 : rd ≠ 0 := fun h => by rw [h, h0] at hrd; cases hrd
  have hrd1 : rd ≠ 1 := fun h => by rw [h, h1] at hrd; cases hrd
  have hwr0 : wr ≠ 0 := fun h => by rw [h, h0] at hwr; cases hwr
  have hwr1 : wr ≠ 1 := fun h => by rw [h, h1] at hwr; cases hwr
  have hc : fileAt (close t wr) rd = some (File.pipeRead w.pipes) := by
    rw [fileAt_close, if_neg hne, hall, if_neg hne, if_pos rfl]
  have hp : fileAt (close t rd) wr = some (File.pipeWrite w.pipes) := by
    rw [fileAt_close, if_neg (fun h => hne h.symm), hall, if_pos rfl]
  rw [dup2_open _ _ _ _ hc, dup2_open _ _ _ _ hp]
  refine ⟨_, _, rfl, ?_, ?_, ?_, ?_⟩
  · rw [fileAt_setFd, if_neg (by decide), fileAt_close, if_neg (fun h => hrd0 h.symm), hall,
      if_neg (fun h => hwr0 h.symm), if_neg (fun h => hrd0 h.symm), h0]
  · rw [fileAt_setFd, if_pos rfl]
  · rw [fileAt_setFd, if_pos rfl]
  · rw [fileAt_setFd, if_neg (by decide), fileAt_close, if_neg (fun h => hwr1 h.symm), hall,
      if_neg (fun h => hwr1 h.symm), if_neg (fun h => hrd1 h.symm), h1]

/-- C10: when no system call fails and `connectionFd` is open on the
connection, `runChildProcess` ends with the worker exec'ing the target command
and with exactly the enabled stages forked, wired as `gunzip | target | gzip`:
the target's stdin is the connection when `inputIsCompressed` is off, otherwise
the read end of a pipe whose write end is the stdout of the gunzip process,
whose stdin is the connection; the target's stdout is the connection when
`doCompressOutput` is off, otherwise the write end of a pipe whose read end is
the stdin of the gzip process, whose stdout is the connection. -/
theorem session_topology (sys : SysAnswers) (fds : FdTable) (connectionFd : Nat)
    (inputIsCompressed doCompressOutput : Bool)
    (hpipe : ∀ p, sys.pipeFails p = false) (hfork : ∀ p, sys.forkFails p = false)
    (hexec : ∀ p, sys.execFails p = false)
    (hconn : fileAt fds connectionFd = some File.connection) :
    ∃ tfds gfds zfds,
      runChildProcess sys fds (connectionFd : Int) Program.command inputIsCompressed
          doCompressOutput =
        ((if inputIsCompressed then [Ending.exec Program.gunzip gfds] else [])
            ++ (if doCompressOutput then [Ending.exec Program.gzip zfds] else []),
          Ending.exec Program.command tfds) ∧
      fileAt tfds 0 =
        (if inputIsCompressed then some (File.pipeRead 0) else some File.connection) ∧
      fileAt tfds 1 =
        (if doCompressOutput then some (File.pipeWrite (if inputIsCompressed then 1 else 0))
          else some File.connection) ∧
      (inputIsCompressed = true →
        fileAt gfds 0 = some File.connection ∧ fileAt gfds 1 = some (File.pipeWrite 0)) ∧
      (doCompressOutput = true →
        fileAt zfds 0 = some (File.pipeRead (if inputIsCompressed then 1 else 0)) ∧
          fileAt zfds 1 = some File.connection) := by
  have hconn0 : fileAt (setFd fds 0 (some File.connection)) connectionFd =
      some File.connection := by
    rw [fileAt_setFd]
    split
    · rfl
    · exact hconn
  have hs0 : fileAt (closeLoop (setFd (setFd fds 0 (some File.connection)) 1
      (some File.connection)) (sys.maxfd - 2).toNat 3) 0 = some File.connection := by
    rw [fileAt_closeLoop, if_neg (by omega), fileAt_setFd, if_neg (by decide), fileAt_setFd,
      if_pos rfl]
  have hs1 : fileAt (closeLoop (setFd (setFd fds 0 (some File.connection)) 1
      (some File.connection)) (sys.maxfd - 2).toNat 3) 1 = some File.connection := by
    rw [fileAt_closeLoop, if_neg (by omega), fileAt_setFd, if_pos rfl]
  unfold runChildProcess
  rw [dup2_open _ _ _ _ hconn]
  simp only
  rw [dup2_open _ _ _ _ hconn0]
  simp only [hexec, Bool.false_eq_true, if_false]
  cases inputIsCompressed <;> cases doCompressOutput
  · exact ⟨_, [], [], rfl, hs0, hs1, by simp, by simp⟩
  · obtain ⟨cfds, pfds, heq, hp0, hp1, hc0, hc1⟩ :=
      createPostProcess_ok sys Program.gzip
        ⟨closeLoop (setFd (setFd fds 0 (some File.connection)) 1 (some File.connection))
          (sys.maxfd - 2).toNat 3, 0, []⟩ File.connection File.connection
        (hpipe _) (hfork _) (hexec _) hs0 hs1
    refine ⟨pfds, [], cfds, ?_, hp0, hp1, by simp, fun _ => ⟨hc0, hc1⟩⟩
    simp only [Bool.false_eq_true, if_false, if_true, heq]
  · obtain ⟨cfds, pfds, heq, hp0, hp1, hc0, hc1⟩ :=
      createPreProcess_ok sys Program.gunzip
        ⟨closeLoop (setFd (setFd fds 0 (some File.connection)) 1 (some File.connection))
          (sys.maxfd - 2).toNat 3, 0, []⟩ File.connection File.connection
        (hpipe _) (hfork _) (hexec _) hs0 hs1
    refine ⟨pfds, cfds, [], ?_, hp0, hp1, fun _ => ⟨hc0, hc1⟩, by simp⟩
    simp only [Bool.false_eq_true, if_false, if_true, heq]
    rfl
  · obtain ⟨cfds, pfds, heq, hp0, hp1, hc0, hc1⟩ :=
      createPreProcess_ok sys Program.gunzip
        ⟨closeLoop (setFd (setFd fds 0 (some File.connection)) 1 (some File.connection))
          (sys.maxfd - 2).toNat 3, 0, []⟩ File.connection File.connection
        (hpipe _) (hfork _) (hexec _) hs0 hs1
    obtain ⟨cfds2, pfds2, heq2, hq0, hq1, hd0, hd1⟩ :=
      createPostProcess_ok sys Program.gzip
        ⟨pfds, 1, [Ending.exec Program.gunzip cfds]⟩ (File.pipeRead 0) File.connection
        (hpipe _) (hfork _) (hexec _) hp0 hp1
    refine ⟨pfds2, cfds, cfds2, ?_, hq0, hq1, fun _ => ⟨hc0, hc1⟩, fun _ => ⟨hd0, hd1⟩⟩
    simp only [if_true, heq]
    simp only [List.nil_append, Nat.zero_add] at heq2 ⊢
    rw [heq2]

/-- Both flags on, connection on descriptor 4. -/
theorem session_topology_witness :
    ∃ tfds gfds zfds,
      runChildProcess noFailure workerFdsExample ((4 : Nat) : Int) Program.command true true =
        ((if true then [Ending.exec Program.gunzip gfds] else [])
            ++ (if true then [Ending.exec Program.gzip zfds] else []),
          Ending.exec Program.command tfds) ∧
      fileAt tfds 0 = (if true then some (File.pipeRead 0) else some File.connection) ∧
      fileAt tfds 1 =
        (if true then some (File.pipeWrite (if true then 1 else 0))
          else some File.connection) ∧
      (true = true →
        fileAt gfds 0 = some File.connection ∧ fileAt gfds 1 = some (File.pipeWrite 0)) ∧
      (true = true →
        fileAt zfds 0 = some (File.pipeRead (if true then 1 else 0)) ∧
          fileAt zfds 1 = some File.connection) :=
  session_topology noFailure workerFdsExample 4 true true (fun _ => rfl) (fun _ => rfl)
    (fun _ => rfl) (by decide)

/-! ## Descriptors inherited at exec -/

theorem close_of_length_le (t : FdTable) (fd : Nat) (h : t.length ≤ fd) : close t fd = t := by
  have : ¬ fd < t.length := by omega
  simp [close, this]

theorem closeLoop_of_length_le (t : FdTable) (n tfd : Nat) (h : t.length ≤ tfd) :
    closeLoop t n tfd = t := by
  induction n generalizing tfd with
  | zero => rfl
  | succ n ih =>
    rw [closeLoop, close_of_length_le t tfd h]
    exact ih (tfd + 1) (by omega)

/-- With neither flag set and nothing failing, the worker execs the target
with every descriptor from 3 up to `sysconf (_SC_OPEN_MAX)` closed. -/
theorem noFlags_descriptors_closed (sys : SysAnswers) (fds : FdTable) (connectionFd : Nat)
    (hexec : sys.execFails Program.command = false)
    (hconn : fileAt fds connectionFd = some File.connection) :
    ∃ tfds, runChildProcess sys fds (connectionFd : Int) Program.command false false =
        ([], Ending.exec Program.command tfds) ∧
      ∀ fd : Nat, 3 ≤ fd → (fd : Int) ≤ sys.maxfd → fileAt tfds fd = none := by
  have hconn0 : fileAt (setFd fds 0 (some File.connection)) connectionFd =
      some File.connection := by
    rw [fileAt_setFd]
    split
    · rfl
    · exact hconn
  refine ⟨closeLoop (setFd (setFd fds 0 (some File.connection)) 1 (some File.connection))
    (sys.maxfd - 2).toNat 3, ?_, ?_⟩
  · unfold runChildProcess
    rw [dup2_open _ _ _ _ hconn]
    simp only
    rw [dup2_open _ _ _ _ hconn0]
    simp [hexec]
  · intro fd h3 hmax
    rw [fileAt_closeLoop, if_pos (by omega)]

/-- When nothing fails, `createPreProcess` leaves both processes with a second
descriptor on the pipe: the caller keeps `fd_set [0]` open next to its new
stdin, the stage keeps `fd_set [1]` open next to its new stdout. -/
theorem createPreProcess_leftover (sys : SysAnswers) (argv0 : Program) (w : Worker)
    (f0 f1 : File)
    (hpipe : sys.pipeFails argv0 = false) (hfork : sys.forkFails argv0 = false)
    (hexec : sys.execFails argv0 = false)
    (h0 : fileAt w.fds 0 = some f0) (h1 : fileAt w.fds 1 = some f1) :
    ∃ cfds pfds, createPreProcess sys argv0 w =
        Except.ok ⟨pfds, w.pipes + 1, w.stages ++ [Ending.exec argv0 cfds]⟩ ∧
      (∃ rd, rd ≠ 0 ∧ rd ≠ 1 ∧ fileAt w.fds rd = none ∧
        fileAt pfds rd = some (File.pipeRead w.pipes)) ∧
      (∃ wr, wr ≠ 0 ∧ wr ≠ 1 ∧ fileAt cfds wr = some (File.pipeWrite w.pipes)) := by
  obtain ⟨hrd, hwr, hne, hall⟩ := pipe_spec w.fds w.pipes
  unfold createPreProcess
  simp only [hpipe, hfork, hexec, Bool.false_eq_true, if_false]
  generalize pipe w.fds w.pipes = fd_set at hrd hwr hne hall ⊢
  obtain ⟨t, rd, wr⟩ := fd_set
  simp only at hrd hwr hne hall ⊢
  have hrd0 : rd ≠ 0 := fun h => by rw [h, h0] at hrd; cases hrd
  have hrd1 : rd ≠ 1 := fun h => by rw [h, h1] at hrd; cases hrd
  have hwr0 : wr ≠ 0 := fun h => by rw [h, h0] at hwr; cases hwr
  have hwr1 : wr ≠ 1 := fun h => by rw [h, h1] at hwr; cases hwr
  have hc : fileAt (close t rd) wr = some (File.pipeWrite w.pipes) := by
    rw [fileAt_close, if_neg (fun h => hne h.symm), hall, if_pos rfl]
  have hp : fileAt (close t wr) rd = some (File.pipeRead w.pipes) := by
    rw [fileAt_close, if_neg hne, hall, if_neg hne, if_pos rfl]
  rw [dup2_open _ _ _ _ hc, dup2_open _ _ _ _ hp]
  refine ⟨_, _, rfl, ⟨rd, hrd0, hrd1, hrd, ?_⟩, ⟨wr, hwr0, hwr1, ?_⟩⟩
  · rw [fileAt_setFd, if_neg hrd0]
    exact hp
  · rw [fileAt_setFd, if_neg hwr1]
    exact hc

/-- With `inputIsCompressed` set and nothing failing, whatever the worker's
descriptors were: the target is exec'ed with a descriptor other than stdin and
stdout still open on the read end of the gunzip pipe, and gunzip with one still
open on its write end. When descriptor 2 was open and `sysconf` gave at least
2, the target's leftover descriptor is above 2. -/
theorem unzip_pipe_ends_inherited (sys : SysAnswers) (fds : FdTable) (connectionFd : Nat)
    (hpipe : ∀ p, sys.pipeFails p = false) (hfork : ∀ p, sys.forkFails p = false)
    (hexec : ∀ p, sys.execFails p = false)
    (hconn : fileAt fds connectionFd = some File.connection) :
    ∃ tfds gfds,
      runChildProcess sys fds (connectionFd : Int) Program.command true false =
        ([Ending.exec Program.gunzip gfds], Ending.exec Program.command tfds) ∧
      (∃ rd, rd ≠ 0 ∧ rd ≠ 1 ∧ fileAt tfds rd = some (File.pipeRead 0) ∧
        (∀ f2, fileAt fds 2 = some f2 → 2 < rd)) ∧
      (∃ wr, wr ≠ 0 ∧ wr ≠ 1 ∧ fileAt gfds wr = some (File.pipeWrite 0)) := by
  have hconn0 : fileAt (setFd fds 0 (some File.connection)) connectionFd =
      some File.connection := by
    rw [fileAt_setFd]
    split
    · rfl
    · exact hconn
  have hs0 : fileAt (closeLoop (setFd (setFd fds 0 (some File.connection)) 1
      (some File.connection)) (sys.maxfd - 2).toNat 3) 0 = some File.connection := by
    rw [fileAt_closeLoop, if_neg (by omega), fileAt_setFd, if_neg (by decide), fileAt_setFd,
      if_pos rfl]
  have hs1 : fileAt (closeLoop (setFd (setFd fds 0 (some File.connection)) 1
      (some File.connection)) (sys.maxfd - 2).toNat 3) 1 = some File.connection := by
    rw [fileAt_closeLoop, if_neg (by omega), fileAt_setFd, if_pos rfl]
  have hs2 : fileAt (closeLoop (setFd (setFd fds 0 (some File.connection)) 1
      (some File.connection)) (sys.maxfd - 2).toNat 3) 2 = fileAt fds 2 := by
    rw [fileAt_closeLoop, if_neg (by omega), fileAt_setFd, if_neg (by decide), fileAt_setFd,
      if_neg (by decide)]
  obtain ⟨cfds, pfds, heq, ⟨rd, hrd0, hrd1, hrdnone, hrd⟩, hw⟩ :=
    createPreProcess_leftover sys Program.gunzip
      ⟨closeLoop (setFd (setFd fds 0 (some File.connection)) 1 (some File.connection))
        (sys.maxfd - 2).toNat 3, 0, []⟩ File.connection File.connection
      (hpipe _) (hfork _) (hexec _) hs0 hs1
  refine ⟨pfds, cfds, ?_, ⟨rd, hrd0, hrd1, hrd, ?_⟩, hw⟩
  · unfold runChildProcess
    rw [dup2_open _ _ _ _ hconn]
    simp only
    rw [dup2_open _ _ _ _ hconn0]
    simp only [hexec, Bool.false_eq_true, if_false, if_true, heq]
    rfl
  · intro f2 hf2
    have hrd2 : rd ≠ 2 := by
      intro h
      simp only at hrdnone
      rw [h, hs2, hf2] at hrdnone
      cases hrdnone
    omega

theorem workerFdsExample_closeLoop :
    closeLoop [some File.connection, some File.connection, some (File.inherited 2), none,
        some File.connection] (noFailure.maxfd - 2).toNat 3 =
      [some File.connection, some File.connection, some (File.inherited 2), none, none] := by
  have hn : (noFailure.maxfd - 2).toNat = 1020 + 1 + 1 := by decide
  rw [hn, closeLoop, closeLoop, closeLoop_of_length_le _ _ _ (by decide)]
  decide

/-- C11 fails on the code: with `inputIsCompressed` set, a worker whose
descriptors 0, 1, 2 are the standard streams and whose descriptor 4 is the
connection execs the target with descriptor 3 still open on the read end of the
gunzip pipe, and gunzip is exec'ed with descriptor 4 still open on its write
end. -/
theorem pipe_ends_open_at_exec :
    runChildProcess noFailure workerFdsExample 4 Program.command true false =
      ([Ending.exec Program.gunzip
          [some File.connection, some (File.pipeWrite 0), some (File.inherited 2), none,
            some (File.pipeWrite 0)]],
        Ending.exec Program.command
          [some (File.pipeRead 0), some File.connection, some (File.inherited 2),
            some (File.pipeRead 0), none]) := by
  have h0 : dup2 workerFdsExample 4 0 =
      some [some File.connection, some (File.inherited 1), some (File.inherited 2), none,
        some File.connection] := by decide
  have h1 : dup2 [some File.connection, some (File.inherited 1), some (File.inherited 2), none,
        some File.connection] 4 1 =
      some [some File.connection, some File.connection, some (File.inherited 2), none,
        some File.connection] := by decide
  unfold runChildProcess
  rw [h0]
  simp only
  rw [h1]
  simp only
  rw [workerFdsExample_closeLoop]
  decide

/-! ## A failed exit check -/

/-- C14: in a reaper pass, a slot below `M` that is in use and whose `waitpid`
returns -1 keeps its record (pid, state, deadline) whatever the time, has no
`kill` issued for it, its only events being the `waitpid` call and the
diagnostic; and every slot below `M` of the table, before or after it, is still
handled by the loop body in that pass. -/
theorem waitpid_error_skips_slot (env : PassEnv) (children : ProcessList) (M : Int) (j : Nat)
    (proc : ProcessData) (hj : (j : Int) < M) (hget : children[j]? = some proc)
    (hocc : 0 ≤ proc.pid) (herr : env.waitpid j = -1) :
    (checkUpOnTheKids env children M).1[j]? = some proc ∧
      killsTo j (checkUpOnTheKids env children M).2 = [] ∧
      slotLog j (checkUpOnTheKids env children M).2 = [Event.waitpid proc.pid, Event.perrorf] ∧
      ∀ (i : Nat) (q : ProcessData), (i : Int) < M → children[i]? = some q →
        (checkUpOnTheKids env children M).1[i]? =
            some (checkKid env.timeNow (env.waitpid i) (env.kill i) q).1 ∧
          slotLog i (checkUpOnTheKids env children M).2 =
            (checkKid env.timeNow (env.waitpid i) (env.kill i) q).2 := by
  have hj2 : j < M.toNat := by omega
  refine ⟨?_, ?_, ?_, ?_⟩
  · rw [checkUpOnTheKids_slot env children M j proc hj hget]
    simp [checkKid, hocc, herr]
  · rw [checkUpOnTheKids_killsTo env children M j proc hj hget]
    simp [checkKid, hocc, herr]
  · rw [checkUpOnTheKids_slotLog]
    simp [hj2, hget, checkKid, hocc, herr]
  · intro i q hi hq
    have hi2 : i < M.toNat := by omega
    refine ⟨checkUpOnTheKids_slot env children M i q hi hq, ?_⟩
    rw [checkUpOnTheKids_slotLog]
    simp [hi2, hq]

/-- Slot 0 holds process 41, overdue at time 99, and its `waitpid` fails. -/
theorem waitpid_error_skips_slot_witness :
    (checkUpOnTheKids ⟨99, fun _ => -1, fun _ => 0⟩ overdueExample 20).1[0]? =
        some ⟨41, ProcessState.psRunning, 10⟩ ∧
      killsTo 0 (checkUpOnTheKids ⟨99, fun _ => -1, fun _ => 0⟩ overdueExample 20).2 = [] :=
  ⟨(waitpid_error_skips_slot ⟨99, fun _ => -1, fun _ => 0⟩ overdueExample 20 0
      ⟨41, ProcessState.psRunning, 10⟩ (by decide) rfl (by decide) rfl).1,
    (waitpid_error_skips_slot ⟨99, fun _ => -1, fun _ => 0⟩ overdueExample 20 0
      ⟨41, ProcessState.psRunning, 10⟩ (by decide) rfl (by decide) rfl).2.1⟩

/-! ## The accepted descriptor in the parent -/

/-- An iteration that finds a slot, accepts a connection and then sees `fork`
fail: the log after the reaper pass is accept, fork, diagnostic, delay. -/
theorem fork_failure_iteration (listenFd : Int) (M : Int) (maximumTime : ℚ) (env : LoopEnv)
    (children : ProcessList)
    (hslot : ¬ findSlot (checkUpOnTheKids env.pass children M).1 M < 0)
    (haccept : 0 ≤ env.accept) (hfork : env.fork < 0) :
    loopIteration listenFd M maximumTime env children =
      (LoopOutcome.continues (checkUpOnTheKids env.pass children M).1,
        (checkUpOnTheKids env.pass children M).2.map Prod.snd
          ++ [Event.accept, Event.fork, Event.perrorf, Event.delay]) := by
  have h2 : ¬ (env.accept < 0) := by omega
  simp [loopIteration, hslot, h2, hfork]

/-- An iteration that finds a slot, accepts a connection and forks in the
parent: `close (connectionFd)` is among its events. -/
theorem fork_success_closes (listenFd : Int) (M : Int) (maximumTime : ℚ) (env : LoopEnv)
    (children : ProcessList)
    (hslot : ¬ findSlot (checkUpOnTheKids env.pass children M).1 M < 0)
    (haccept : 0 ≤ env.accept) (hfork : 0 < env.fork) :
    Event.close env.accept ∈ (loopIteration listenFd M maximumTime env children).2 := by
  have h2 : ¬ (env.accept < 0) := by omega
  have h3 : ¬ (env.fork < 0) := by omega
  simp [loopIteration, hslot, h2, h3, hfork]

/-- No iteration closes a descriptor when `fork` fails after a successful
`accept`. -/
theorem fork_failure_no_close (listenFd : Int) (M : Int) (maximumTime : ℚ) (env : LoopEnv)
    (children : ProcessList)
    (hslot : ¬ findSlot (checkUpOnTheKids env.pass children M).1 M < 0)
    (haccept : 0 ≤ env.accept) (hfork : env.fork < 0) (fd : Int) :
    Event.close fd ∉ (loopIteration listenFd M maximumTime env children).2 := by
  rw [fork_failure_iteration listenFd M maximumTime env children hslot haccept hfork]
  intro h
  simp only [List.mem_append, List.mem_cons, List.mem_singleton, List.not_mem_nil,
    or_false] at h
  rcases h with h | h
  · have := checkUpOnTheKids_events env.pass children M _ h
    simp [reaperEvent] at this
  · rcases h with h | h | h | h <;> cases h

theorem startup_pass_finds_slot (env : PassEnv) :
    ¬ findSlot (checkUpOnTheKids env startupExample 20).1 20 < 0 := by
  have h := (findSlot_spec (checkUpOnTheKids env startupExample 20).1 20).2.1 0
  have h0 : (checkUpOnTheKids env startupExample 20).1[0]? =
      some (checkKid env.timeNow (env.waitpid 0) (env.kill 0)
        ⟨-1, ProcessState.psRunning, 0⟩).1 :=
    checkUpOnTheKids_slot _ startupExample 20 0 ⟨-1, ProcessState.psRunning, 0⟩ (by decide) rfl
  have h1 : findSlot (checkUpOnTheKids env startupExample 20).1 20 = ((0 : Nat) : Int) :=
    h.mpr ⟨by decide, by simp [pidAt, h0, checkKid], fun k hk => by omega⟩
  rw [h1]
  decide

/-- C15 fails on the code: from the startup table, an iteration in which
`accept` returns descriptor 5 and `fork` returns -1 goes back to the top of the
loop having issued accept, fork, a diagnostic and a delay after its reaper
pass, and no `close` of descriptor 5. -/
theorem connection_left_open_when_fork_fails :
    loopIteration 3 20 86400 (forkFailsEnv 1) startupExample =
        (LoopOutcome.continues (checkUpOnTheKids (forkFailsEnv 1).pass startupExample 20).1,
          (checkUpOnTheKids (forkFailsEnv 1).pass startupExample 20).2.map Prod.snd
            ++ [Event.accept, Event.fork, Event.perrorf, Event.delay]) ∧
      Event.close 5 ∉ (loopIteration 3 20 86400 (forkFailsEnv 1) startupExample).2 :=
  ⟨fork_failure_iteration 3 20 86400 (forkFailsEnv 1) startupExample
      (startup_pass_finds_slot _) (by decide) (by decide),
    fork_failure_no_close 3 20 86400 (forkFailsEnv 1) startupExample
      (startup_pass_finds_slot _) (by decide) (by decide) 5⟩

/-! ## Option values -/

theorem optionLoop_maximumSessions (opts : List Opt) (st next : Settings)
    (h : optionLoop opts st = Except.ok next) :
    next.maximumSessions =
      match lastSessions opts with
      | none => st.maximumSessions
      | some optarg => atoi optarg := by
  induction opts generalizing st with
  | nil =>
    simp only [optionLoop, Except.ok.injEq] at h
    simp [lastSessions, ← h]
  | cons o rest ih =>
    cases o with
    | zero => simp [optionLoop] at h
    | h => simp [optionLoop] at h
    | v => simp [optionLoop] at h
    | invalid => simp [optionLoop] at h
    | u =>
      simp only [optionLoop] at h
      have := ih _ h
      simpa [lastSessions] using this
    | z =>
      simp only [optionLoop] at h
      have := ih _ h
      simpa [lastSessions] using this
    | other =>
      simp only [optionLoop] at h
      have := ih _ h
      simpa [lastSessions] using this
    | t optarg =>
      simp only [optionLoop] at h
      split at h
      · simp at h
      · simpa [lastSessions] using ih _ h
    | s optarg =>
      simp only [optionLoop] at h
      have := ih _ h
      simp only [lastSessions]
      cases hl : lastSessions rest with
      | none => simpa [hl] using this
      | some later => simpa [hl] using this

theorem optionLoop_maximumTime (opts : List Opt) (st next : Settings)
    (h : optionLoop opts st = Except.ok next) :
    match lastTimeout opts with
    | none => next.maximumTime = st.maximumTime
    | some optarg => ∃ before, optionT optarg before = Except.ok next.maximumTime := by
  induction opts generalizing st with
  | nil =>
    simp only [optionLoop, Except.ok.injEq] at h
    simp [lastTimeout, ← h]
  | cons o rest ih =>
    cases o with
    | zero => simp [optionLoop] at h
    | h => simp [optionLoop] at h
    | v => simp [optionLoop] at h
    | invalid => simp [optionLoop] at h
    | u =>
      simp only [optionLoop] at h
      have := ih _ h
      simpa [lastTimeout] using this
    | z =>
      simp only [optionLoop] at h
      have := ih _ h
      simpa [lastTimeout] using this
    | other =>
      simp only [optionLoop] at h
      have := ih _ h
      simpa [lastTimeout] using this
    | s optarg =>
      simp only [optionLoop] at h
      have := ih _ h
      simpa [lastTimeout] using this
    | t optarg =>
      simp only [optionLoop] at h
      split at h
      · simp at h
      · rename_i m hm
        have := ih _ h
        simp only [lastTimeout]
        cases hl : lastTimeout rest with
        | none =>
          simp only [hl] at this ⊢
          exact ⟨st.maximumTime, by rw [hm, this]⟩
        | some later =>
          simp only [hl] at this ⊢
          exact this

theorem optionLoop_append (pre rest : List Opt) (st : Settings) :
    optionLoop (pre ++ rest) st =
      match optionLoop pre st with
      | Except.error e => Except.error e
      | Except.ok mid => optionLoop rest mid := by
  induction pre generalizing st with
  | nil => simp [optionLoop]
  | cons o pre ih =>
    cases o with
    | zero => simp [optionLoop]
    | h => simp [optionLoop]
    | v => simp [optionLoop]
    | invalid => simp [optionLoop]
    | u => simpa [optionLoop] using ih _
    | z => simpa [optionLoop] using ih _
    | other => simpa [optionLoop] using ih _
    | s optarg => simpa [optionLoop] using ih _
    | t optarg =>
      simp only [List.cons_append, optionLoop]
      cases optionT optarg st.maximumTime with
      | error e => simp
      | ok m => simpa using ih _

theorem scanDigits_append (ds rest : List Char) (acc : Nat)
    (hds : ∀ c ∈ ds, isdigit c = true)
    (hrest : ∀ q r, rest = q :: r → isdigit q = false) :
    scanDigits acc (ds ++ rest) = (decimalValue acc ds, rest) := by
  induction ds generalizing acc with
  | nil =>
    cases rest with
    | nil => simp [scanDigits, decimalValue]
    | cons q r => simp [scanDigits, decimalValue, hrest q r rfl]
  | cons d ds ih =>
    have hd : isdigit d = true := hds d (List.mem_cons_self d ds)
    have hih := ih (acc * 10 + (d.toNat - 48)) (fun c hc => hds c (List.mem_cons_of_mem d hc))
    rw [List.cons_append, scanDigits, if_pos hd, hih]
    simp [decimalValue]

theorem scanSigned_digits (neg : Bool) (ds rest : List Char) (hne : ds ≠ [])
    (hds : ∀ c ∈ ds, isdigit c = true)
    (hrest : ∀ q r, rest = q :: r → isdigit q = false) :
    scanSigned neg (ds ++ rest) =
      some (if neg then -(decimalValue 0 ds : Int) else (decimalValue 0 ds : Int), rest) := by
  cases ds with
  | nil => exact absurd rfl hne
  | cons d ds =>
    have hd : isdigit d = true := hds d (List.mem_cons_self d ds)
    have hsc := scanDigits_append (d :: ds) rest 0 hds hrest
    simp only [List.cons_append] at hsc
    simp only [List.cons_append, scanSigned, hd, if_true, hsc]

theorem isdigit_facts (c : Char) (h : isdigit c = true) :
    isspace c = false ∧ c.toNat ≠ 45 ∧ c.toNat ≠ 43 ∧ c ≠ 'n' := by
  simp only [isdigit, Bool.and_eq_true, decide_eq_true_eq] at h
  refine ⟨?_, by omega, by omega, ?_⟩
  · simp only [isspace, Bool.or_eq_false_iff, decide_eq_false_iff_not, Bool.and_eq_false_iff]
    omega
  · intro hc
    rw [hc] at h
    have : ('n' : Char).toNat = 110 := by decide
    omega

/-- Reading a decimal integer, followed by nothing or by a character that is
not a digit, gives its value and leaves what follows. -/
theorem scanLong_decimal (sign ds rest : List Char) (v : Int) (h : IsDecimal sign ds v)
    (hrest : ∀ q r, rest = q :: r → isdigit q = false) :
    scanLong (sign ++ ds ++ rest) = some (v, rest) := by
  obtain ⟨hne, hds, hv⟩ := h
  rcases hv with ⟨hs | hs, rfl⟩ | ⟨hs, rfl⟩
  · subst hs
    cases ds with
    | nil => exact absurd rfl hne
    | cons d ds =>
      obtain ⟨h1, h2, h3, _⟩ := isdigit_facts d (hds d (List.mem_cons_self d ds))
      have := scanSigned_digits false (d :: ds) rest hne hds hrest
      simp only [List.cons_append] at this
      simp [scanLong, List.dropWhile_cons, h1, h2, h3, this]
  · subst hs
    have hsp : isspace (Char.ofNat 43) = false := by decide
    have h45 : ¬ (Char.ofNat 43).toNat = 45 := by decide
    have h43 : (Char.ofNat 43).toNat = 43 := by decide
    have := scanSigned_digits false ds rest hne hds hrest
    simp [scanLong, List.dropWhile_cons, hsp, h45, h43, this]
  · subst hs
    have hsp : isspace (Char.ofNat 45) = false := by decide
    have h45 : (Char.ofNat 45).toNat = 45 := by decide
    have := scanSigned_digits true ds rest hne hds hrest
    simp [scanLong, List.dropWhile_cons, hsp, h45, this]

theorem clampLong_of_long (v : Int) (h1 : -9223372036854775808 ≤ v)
    (h2 : v ≤ 9223372036854775807) : clampLong v = v := by
  unfold clampLong
  rw [min_eq_left h2, max_eq_right h1]

theorem wrapInt_of_int (v : Int) (h1 : -2147483648 ≤ v) (h2 : v ≤ 2147483647) :
    wrapInt v = v := by
  unfold wrapInt
  omega

theorem atoi_decimal (sign ds : List Char) (v : Int) (h : IsDecimal sign ds v) :
    atoi (sign ++ ds) = wrapInt (clampLong v) := by
  have := scanLong_decimal sign ds [] v h (fun q r hq => by cases hq)
  simp only [List.append_nil] at this
  simp [atoi, this]

theorem processOptions_ok (opts : List Opt) (settings : Settings)
    (h : processOptions opts = Except.ok settings) :
    ∃ st, optionLoop opts defaultSettings = Except.ok st ∧ settings = sanitise st := by
  unfold processOptions at h
  split at h
  · simp at h
  · rename_i st hst
    simp only [Except.ok.injEq] at h
    exact ⟨st, hst, h.symm⟩

theorem isDecimal_int_overflow :
    IsDecimal [] ['2', '1', '4', '7', '4', '8', '3', '6', '4', '8'] 2147483648 :=
  ⟨by simp, by decide, Or.inl ⟨Or.inl rfl, by decide⟩⟩

/-- C12 as stated fails: the command line `-s 2147483648` gives 1 session, not
80: `atoi` hands `main` the value converted to `int`, which is -2147483648. -/
theorem sessions_wrap_beyond_int :
    processOptions [Opt.s ['2', '1', '4', '7', '4', '8', '3', '6', '4', '8']] =
        Except.ok ⟨false, false, 1, 86400⟩ ∧
      IsDecimal [] ['2', '1', '4', '7', '4', '8', '3', '6', '4', '8'] 2147483648 ∧
      (80 : Int) < 2147483648 := by
  have h : atoi ['2', '1', '4', '7', '4', '8', '3', '6', '4', '8'] = -2147483648 := by decide
  refine ⟨?_, isDecimal_int_overflow, by decide⟩
  simp [processOptions, optionLoop, defaultSettings, sanitise, h]

/-- C12, amended: when option processing gets through to the loop, the maximum
number of sessions is 20 if no option s was given; and if the last option s was
given the decimal integer `v` within the range of `int`, it is `v` clamped to
the range 1 to 80: 80 for values above 80, 1 for values below 1, `v` otherwise.
For any decimal integer `v` the value clamped is what `atoi` returns: `v`
saturated to `long`, then converted to `int`. -/
theorem sessions_clamped (opts : List Opt) (settings : Settings)
    (hok : processOptions opts = Except.ok settings) :
    (lastSessions opts = none → settings.maximumSessions = 20) ∧
      (∀ (sign ds : List Char) (v : Int), lastSessions opts = some (sign ++ ds) →
        IsDecimal sign ds v → -2147483648 ≤ v → v ≤ 2147483647 →
        (80 < v → settings.maximumSessions = 80) ∧
          (v < 1 → settings.maximumSessions = 1) ∧
          (1 ≤ v → v ≤ 80 → settings.maximumSessions = v)) ∧
      (∀ (sign ds : List Char) (v : Int), lastSessions opts = some (sign ++ ds) →
        IsDecimal sign ds v →
        settings.maximumSessions = max 1 (min 80 (wrapInt (clampLong v)))) := by
  obtain ⟨st, hst, rfl⟩ := processOptions_ok opts settings hok
  have hs := optionLoop_maximumSessions opts defaultSettings st hst
  refine ⟨?_, ?_, ?_⟩
  · intro hnone
    rw [hnone] at hs
    simp [sanitise, hs, defaultSettings]
  · intro sign ds v hlast hdec hv1 hv2
    rw [hlast] at hs
    have hat : atoi (sign ++ ds) = v := by
      rw [atoi_decimal sign ds v hdec, clampLong_of_long v (by omega) (by omega),
        wrapInt_of_int v hv1 hv2]
    simp only [hat] at hs
    refine ⟨fun h => ?_, fun h => ?_, fun h1 h2 => ?_⟩
    · simp [sanitise, hs, h]
    · have h80 : ¬ v > 80 := by omega
      simp [sanitise, hs, h, h80]
    · have h80 : ¬ v > 80 := by omega
      have h0 : ¬ v < 1 := by omega
      simp [sanitise, hs, h80, h0]
  · intro sign ds v hlast hdec
    rw [hlast] at hs
    simp only [atoi_decimal sign ds v hdec] at hs
    simp only [sanitise, hs]
    split_ifs <;> omega

theorem isDecimal_hundred : IsDecimal [] ['1', '0', '0'] 100 :=
  ⟨by simp, by decide, Or.inl ⟨Or.inl rfl, by decide⟩⟩

theorem processOptions_hundred :
    processOptions [Opt.u, Opt.s ['1', '0', '0']] = Except.ok ⟨true, false, 80, 86400⟩ := by
  have h : atoi ['1', '0', '0'] = 100 := by decide
  simp [processOptions, optionLoop, defaultSettings, sanitise, h]

/-- The command line `-u -s 100`: 80 sessions. -/
theorem sessions_clamped_witness :
    processOptions [Opt.u, Opt.s ['1', '0', '0']] = Except.ok ⟨true, false, 80, 86400⟩ ∧
      IsDecimal [] ['1', '0', '0'] 100 ∧
      (⟨true, false, 80, 86400⟩ : Settings).maximumSessions = 80 :=
  ⟨processOptions_hundred, isDecimal_hundred,
    ((sessions_clamped [Opt.u, Opt.s ['1', '0', '0']] ⟨true, false, 80, 86400⟩
      processOptions_hundred).2.1 [] ['1', '0', '0'] 100 rfl isDecimal_hundred (by decide)
      (by decide)).1 (by decide)⟩

/-! ## The session time limit -/

theorem decimal_ne_none (sign ds rest : List Char) (v : Int) (h : IsDecimal sign ds v) :
    sign ++ ds ++ rest ≠ ['n', 'o', 'n', 'e'] := by
  obtain ⟨hne, hds, hv⟩ := h
  intro heq
  rcases hv with ⟨hs | hs, _⟩ | ⟨hs, _⟩
  · subst hs
    cases ds with
    | nil => exact hne rfl
    | cons d ds =>
      simp only [List.nil_append, List.cons_append, List.cons.injEq] at heq
      exact (isdigit_facts d (hds d (List.mem_cons_self d ds))).2.2.2 heq.1
  · subst hs
    simp only [List.cons_append, List.cons.injEq] at heq
    exact absurd heq.1 (by decide)
  · subst hs
    simp only [List.cons_append, List.cons.injEq] at heq
    exact absurd heq.1 (by decide)

theorem sscanfLongChar_plain (sign ds : List Char) (v : Int) (h : IsDecimal sign ds v)
    (value : Int) (xx : Char) : sscanfLongChar (sign ++ ds) value xx = (1, clampLong v, xx) := by
  have := scanLong_decimal sign ds [] v h (fun q r hq => by cases hq)
  simp only [List.append_nil] at this
  simp [sscanfLongChar, this]

theorem sscanfLongChar_qualified (sign ds : List Char) (v : Int) (h : IsDecimal sign ds v)
    (q : Char) (rest : List Char) (hq : isdigit q = false) (value : Int) (xx : Char) :
    sscanfLongChar (sign ++ ds ++ q :: rest) value xx = (2, clampLong v, q) := by
  have := scanLong_decimal sign ds (q :: rest) v h (fun a r ha => by
    simp only [List.cons.injEq] at ha
    rw [← ha.1]
    exact hq)
  unfold sscanfLongChar
  rw [this]

theorem optionT_plain (sign ds : List Char) (v : Int) (h : IsDecimal sign ds v) (before : ℚ) :
    optionT (sign ++ ds) before = Except.ok (roundDouble (clampLong v : ℚ)) := by
  have hne := decimal_ne_none sign ds [] v h
  simp only [List.append_nil] at hne
  simp [optionT, hne, sscanfLongChar_plain sign ds v h]

theorem optionT_qualified (sign ds : List Char) (v : Int) (h : IsDecimal sign ds v)
    (q : Char) (rest : List Char) (hq : isdigit q = false) (before : ℚ) :
    optionT (sign ++ ds ++ q :: rest) before =
      if q = Char.ofNat 32 then Except.ok (roundDouble (clampLong v : ℚ))
      else if q = 'm' then Except.ok (dmul 60 (roundDouble (clampLong v : ℚ)))
      else if q = 'h' then Except.ok (dmul 3600 (roundDouble (clampLong v : ℚ)))
      else if q = 'd' then Except.ok (dmul 86400 (roundDouble (clampLong v : ℚ)))
      else if q = 'w' then Except.ok (dmul 604800 (roundDouble (clampLong v : ℚ)))
      else Except.error ⟨1, Message.usage⟩ := by
  have hne := decimal_ne_none sign ds (q :: rest) v h
  unfold optionT
  rw [if_neg hne]
  simp only [sscanfLongChar_qualified sign ds v h q rest hq]
  simp

theorem optionT_no_integer (optarg : List Char) (hscan : scanLong optarg = none)
    (hne : optarg ≠ ['n', 'o', 'n', 'e']) (before : ℚ) :
    optionT optarg before = Except.error ⟨1, Message.usage⟩ := by
  simp only [optionT, hne, if_false, sscanfLongChar, hscan]
  split <;> simp

theorem optionT_none (before : ℚ) :
    optionT ['n', 'o', 'n', 'e'] before = Except.ok 100000000000000000000 := by
  simp [optionT]

theorem scanSigned_some (neg : Bool) (t : List Char) (r : Int × List Char)
    (h : scanSigned neg t = some r) : ∃ d rest, t = d :: rest ∧ isdigit d = true := by
  cases t with
  | nil => simp [scanSigned] at h
  | cons d rest =>
    refine ⟨d, rest, rfl, ?_⟩
    by_contra hd
    simp [scanSigned, hd] at h

/-- Where `scanLong` reads an integer, the string starts with one. -/
theorem scanLong_some_starts (s : List Char) (r : Int × List Char)
    (h : scanLong s = some r) : StartsWithInteger s := by
  have hs : s = s.takeWhile isspace ++ s.dropWhile isspace :=
    (List.takeWhile_append_dropWhile isspace s).symm
  have hws : ∀ c ∈ s.takeWhile isspace, isspace c = true := fun c hc => List.mem_takeWhile_imp hc
  unfold scanLong at h
  generalize s.dropWhile isspace = t at h hs
  generalize s.takeWhile isspace = ws at hs hws
  cases t with
  | nil => simp at h
  | cons c cs =>
    simp only at h
    split_ifs at h with h45 h43
    · obtain ⟨d, rest, hcs, hd⟩ := scanSigned_some true cs r h
      have hc : c = Char.ofNat 45 := by rw [← h45, Char.ofNat_toNat]
      refine ⟨ws, [c], d, rest, ?_, hws, Or.inr (Or.inr (by rw [hc])), hd⟩
      rw [hs, hcs]
      simp
    · obtain ⟨d, rest, hcs, hd⟩ := scanSigned_some false cs r h
      have hc : c = Char.ofNat 43 := by rw [← h43, Char.ofNat_toNat]
      refine ⟨ws, [c], d, rest, ?_, hws, Or.inr (Or.inl (by rw [hc])), hd⟩
      rw [hs, hcs]
      simp
    · obtain ⟨d, rest, hcs, hd⟩ := scanSigned_some false (c :: cs) r h
      refine ⟨ws, [], d, rest, ?_, hws, Or.inl rfl, hd⟩
      rw [hs, hcs]
      simp

theorem scanLong_none_of_not_starts (s : List Char) (h : ¬ StartsWithInteger s) :
    scanLong s = none := by
  cases hsc : scanLong s with
  | none => rfl
  | some r => exact absurd (scanLong_some_starts s r hsc) h

theorem sanitise_maximumTime (st : Settings) :
    (sanitise st).maximumTime = max 1 st.maximumTime := by
  simp only [sanitise]
  split
  · rename_i h
    exact (max_eq_left (le_of_lt h)).symm
  · rename_i h
    exact (max_eq_right (not_lt.mp h)).symm

theorem optionT_result (opts : List Opt) (st : Settings) (optarg : List Char) (m : ℚ)
    (hst : optionLoop opts defaultSettings = Except.ok st)
    (hlast : lastTimeout opts = some optarg)
    (hopt : ∀ before, optionT optarg before = Except.ok m) :
    (sanitise st).maximumTime = max 1 m := by
  have h := optionLoop_maximumTime opts defaultSettings st hst
  rw [hlast] at h
  obtain ⟨before, hb⟩ := h
  rw [hopt before] at hb
  simp only [Except.ok.injEq] at hb
  rw [sanitise_maximumTime, ← hb]

/-- The conversion and the product are exact while the product stays within
53 bits. -/
theorem dmul_exact (v k : Int) (hk : 1 ≤ k) (h1 : -9007199254740992 ≤ v * k)
    (h2 : v * k ≤ 9007199254740992) :
    roundDouble (clampLong v : ℚ) = v ∧
      dmul (k : ℚ) (roundDouble (clampLong v : ℚ)) = (v : ℚ) * k := by
  have hv : -9007199254740992 ≤ v ∧ v ≤ 9007199254740992 := by
    by_cases hv0 : 0 ≤ v
    · have : 0 ≤ v * (k - 1) := mul_nonneg hv0 (by omega)
      constructor
      · omega
      · nlinarith
    · have hneg : v ≤ 0 := by omega
      have : v * (k - 1) ≤ 0 := mul_nonpos_of_nonpos_of_nonneg hneg (by omega)
      constructor
      · nlinarith
      · omega
  have hc : clampLong v = v := clampLong_of_long v (by omega) (by omega)
  have hr : roundDouble (clampLong v : ℚ) = v := by
    rw [hc]
    exact roundDouble_intCast v hv.1 hv.2
  refine ⟨hr, ?_⟩
  rw [hr]
  unfold dmul
  have : (k : ℚ) * (v : ℚ) = ((v * k : Int) : ℚ) := by
    push_cast
    ring
  rw [this, roundDouble_intCast (v * k) h1 h2]
  push_cast
  ring

theorem qualified_result (opts : List Opt) (st : Settings) (sign ds : List Char) (v : Int)
    (q : Char) (k : Int) (hk : 1 ≤ k)
    (hst : optionLoop opts defaultSettings = Except.ok st)
    (hlast : lastTimeout opts = some (sign ++ ds ++ [q]))
    (hopt : ∀ before, optionT (sign ++ ds ++ [q]) before =
      Except.ok (dmul (k : ℚ) (roundDouble (clampLong v : ℚ)))) :
    (sanitise st).maximumTime = max 1 (dmul (k : ℚ) (roundDouble (clampLong v : ℚ))) ∧
      (-9007199254740992 ≤ v * k → v * k ≤ 9007199254740992 →
        (sanitise st).maximumTime = max 1 ((v : ℚ) * k)) := by
  have h := optionT_result opts st _ _ hst hlast hopt
  refine ⟨h, fun h1 h2 => ?_⟩
  rw [h, (dmul_exact v k hk h1 h2).2]

theorem plain_result (opts : List Opt) (st : Settings) (sign ds : List Char) (v : Int)
    (hdec : IsDecimal sign ds v)
    (hst : optionLoop opts defaultSettings = Except.ok st)
    (hlast : lastTimeout opts = some (sign ++ ds)) :
    (sanitise st).maximumTime = max 1 (roundDouble (clampLong v : ℚ)) ∧
      (-9007199254740992 ≤ v → v ≤ 9007199254740992 →
        (sanitise st).maximumTime = max 1 (v : ℚ)) := by
  have h := optionT_result opts st _ _ hst hlast (optionT_plain sign ds v hdec)
  refine ⟨h, fun h1 h2 => ?_⟩
  rw [h, (dmul_exact v 1 (le_refl _) (by omega) (by omega)).1]

theorem isDecimal_two_pow_53_succ :
    IsDecimal [] ['9', '0', '0', '7', '1', '9', '9', '2', '5', '4', '7', '4', '0', '9', '9', '3']
      9007199254740993 :=
  ⟨by simp, by decide, Or.inl ⟨Or.inl rfl, by decide⟩⟩

/-- C13 as stated fails: the command line `-t 9007199254740993` (2^53 + 1
seconds) gives the limit 9007199254740992: the conversion of the value to
`double` rounds it. -/
theorem timeout_rounds_beyond_53_bits :
    processOptions
        [Opt.t ['9', '0', '0', '7', '1', '9', '9', '2', '5', '4', '7', '4', '0', '9', '9', '3']] =
        Except.ok ⟨false, false, 20, 9007199254740992⟩ ∧
      IsDecimal [] ['9', '0', '0', '7', '1', '9', '9', '2', '5', '4', '7', '4', '0', '9', '9', '3']
        9007199254740993 ∧
      (9007199254740992 : ℚ) ≠ max 1 (((9007199254740993 : Int) : ℚ) * 1) := by
  refine ⟨?_, isDecimal_two_pow_53_succ, by norm_num⟩
  have h := optionT_plain [] _ 9007199254740993 isDecimal_two_pow_53_succ 86400
  have hc : clampLong 9007199254740993 = 9007199254740993 := by decide
  rw [hc, roundDouble_two_pow_53_succ] at h
  simp only [List.nil_append] at h
  simp only [processOptions, optionLoop, defaultSettings, h, sanitise]
  norm_num

/-- C13, amended: when option processing gets through to the loop, the session
time limit is 86400 if no option t was given and 1.0E+20 if the last one was
given `none`. If it was given the decimal integer `v` alone (k = 1) or followed
by m, h, d or w (k = 60, 3600, 86400, 604800), the limit is `max 1 (k * v)` as
the code computes it in `double`: `v` stored in a `long` (saturated), converted
to `double` (rounded), multiplied by `k` (rounded); this is exactly
`max 1 (v * k)` whenever `v * k` lies between -2^53 and 2^53. And an option t
whose argument is a decimal integer followed by a character that is neither a
digit, nor a space, nor one of m, h, d, w, or whose argument does not start
(after optional white space) with an optionally signed integer and is not
`none`, makes `main` return status 1 after the usage text, whatever follows on
the command line. -/
theorem timeout_duration (opts : List Opt) :
    (∀ settings, processOptions opts = Except.ok settings →
      (lastTimeout opts = none → settings.maximumTime = 86400) ∧
        (lastTimeout opts = some ['n', 'o', 'n', 'e'] →
          settings.maximumTime = 100000000000000000000) ∧
        (∀ (sign ds : List Char) (v : Int), IsDecimal sign ds v →
          (lastTimeout opts = some (sign ++ ds) →
            settings.maximumTime = max 1 (roundDouble (clampLong v : ℚ)) ∧
              (-9007199254740992 ≤ v → v ≤ 9007199254740992 →
                settings.maximumTime = max 1 (v : ℚ))) ∧
            (lastTimeout opts = some (sign ++ ds ++ ['m']) →
              settings.maximumTime = max 1 (dmul 60 (roundDouble (clampLong v : ℚ))) ∧
                (-9007199254740992 ≤ v * 60 → v * 60 ≤ 9007199254740992 →
                  settings.maximumTime = max 1 ((v : ℚ) * 60))) ∧
            (lastTimeout opts = some (sign ++ ds ++ ['h']) →
              settings.maximumTime = max 1 (dmul 3600 (roundDouble (clampLong v : ℚ))) ∧
                (-9007199254740992 ≤ v * 3600 → v * 3600 ≤ 9007199254740992 →
                  settings.maximumTime = max 1 ((v : ℚ) * 3600))) ∧
            (lastTimeout opts = some (sign ++ ds ++ ['d']) →
              settings.maximumTime = max 1 (dmul 86400 (roundDouble (clampLong v : ℚ))) ∧
                (-9007199254740992 ≤ v * 86400 → v * 86400 ≤ 9007199254740992 →
                  settings.maximumTime = max 1 ((v : ℚ) * 86400))) ∧
            (lastTimeout opts = some (sign ++ ds ++ ['w']) →
              settings.maximumTime = max 1 (dmul 604800 (roundDouble (clampLong v : ℚ))) ∧
                (-9007199254740992 ≤ v * 604800 → v * 604800 ≤ 9007199254740992 →
                  settings.maximumTime = max 1 ((v : ℚ) * 604800))))) ∧
      (∀ (pre post : List Opt) (optarg : List Char) (st : Settings),
        opts = pre ++ Opt.t optarg :: post →
        optionLoop pre defaultSettings = Except.ok st →
        ((∃ (sign ds : List Char) (v : Int) (q : Char) (rest : List Char),
            IsDecimal sign ds v ∧ optarg = sign ++ ds ++ q :: rest ∧ isdigit q = false ∧
              q ≠ Char.ofNat 32 ∧ q ≠ 'm' ∧ q ≠ 'h' ∧ q ≠ 'd' ∧ q ≠ 'w') ∨
          (¬ StartsWithInteger optarg ∧ optarg ≠ ['n', 'o', 'n', 'e'])) →
        processOptions opts = Except.error ⟨1, Message.usage⟩) := by
  constructor
  · intro settings hok
    obtain ⟨st, hst, rfl⟩ := processOptions_ok opts settings hok
    refine ⟨fun hnone => ?_, fun hlast => ?_, fun sign ds v hdec => ⟨?_, ?_, ?_, ?_, ?_⟩⟩
    · have h := optionLoop_maximumTime opts defaultSettings st hst
      rw [hnone] at h
      simp only at h
      rw [sanitise_maximumTime, h]
      norm_num [defaultSettings]
    · rw [optionT_result opts st _ _ hst hlast optionT_none]
      norm_num
    · intro hlast
      exact plain_result opts st sign ds v hdec hst hlast
    · intro hlast
      have := qualified_result opts st sign ds v 'm' 60 (by norm_num) hst hlast (fun before => by
        rw [optionT_qualified sign ds v hdec 'm' [] (by decide) before]
        simp)
      push_cast at this
      exact this
    · intro hlast
      have := qualified_result opts st sign ds v 'h' 3600 (by norm_num) hst hlast
        (fun before => by
          rw [optionT_qualified sign ds v hdec 'h' [] (by decide) before]
          simp)
      push_cast at this
      exact this
    · intro hlast
      have := qualified_result opts st sign ds v 'd' 86400 (by norm_num) hst hlast
        (fun before => by
          rw [optionT_qualified sign ds v hdec 'd' [] (by decide) before]
          simp)
      push_cast at this
      exact this
    · intro hlast
      have := qualified_result opts st sign ds v 'w' 604800 (by norm_num) hst hlast
        (fun before => by
          rw [optionT_qualified sign ds v hdec 'w' [] (by decide) before]
          simp)
      push_cast at this
      exact this
  · intro pre post optarg st hopts hpre hbad
    have hrej : optionT optarg st.maximumTime = Except.error ⟨1, Message.usage⟩ := by
      rcases hbad with ⟨sign, ds, v, q, rest, hdec, rfl, hq, h32, hm, hh, hd, hw⟩ | ⟨hno, hne⟩
      · rw [optionT_qualified sign ds v hdec q rest hq]
        simp [h32, hm, hh, hd, hw]
      · exact optionT_no_integer optarg (scanLong_none_of_not_starts optarg hno) hne _
    rw [hopts]
    unfold processOptions
    rw [optionLoop_append, hpre]
    simp only [optionLoop, hrej]

theorem isDecimal_five : IsDecimal [] ['5'] 5 :=
  ⟨by simp, by decide, Or.inl ⟨Or.inl rfl, by decide⟩⟩

theorem processOptions_five_minutes :
    processOptions [Opt.t ['5', 'm']] = Except.ok ⟨false, false, 20, 300⟩ := by
  have h := optionT_qualified [] ['5'] 5 isDecimal_five 'm' [] (by decide) 86400
  simp only [List.nil_append, List.cons_append] at h
  have hm : ¬ ('m' : Char) = Char.ofNat 32 := by decide
  rw [if_neg hm, if_pos trivial] at h
  have hx := (dmul_exact 5 60 (by norm_num) (by norm_num) (by norm_num)).2
  push_cast at hx
  rw [hx] at h
  simp only [processOptions, optionLoop, defaultSettings, h, sanitise]
  norm_num

/-- The command lines `-t 5m` (300 seconds) and `-t 5x` (usage, status 1). -/
theorem timeout_duration_witness :
    processOptions [Opt.t ['5', 'm']] = Except.ok ⟨false, false, 20, 300⟩ ∧
      (⟨false, false, 20, 300⟩ : Settings).maximumTime = max 1 (((5 : Int) : ℚ) * 60) ∧
      processOptions [Opt.t ['5', 'x']] = Except.error ⟨1, Message.usage⟩ :=
  ⟨processOptions_five_minutes,
    ((((timeout_duration [Opt.t ['5', 'm']]).1 ⟨false, false, 20, 300⟩
      processOptions_five_minutes).2.2 [] ['5'] 5 isDecimal_five).2.1 rfl).2 (by decide)
      (by decide),
    (timeout_duration [Opt.t ['5', 'x']]).2 [] [] ['5', 'x'] defaultSettings rfl rfl
      (Or.inl ⟨[], ['5'], 5, 'x', [], isDecimal_five, rfl, by decide, by decide, by decide,
        by decide, by decide, by decide⟩)⟩

end FilterServer
